import Mathlib

/-!
Verification development for the retrieval-and-context-assembly pipeline of the
intelligent-agent repository.  The Python sources `src/utils/file_processing.py`,
`src/utils/drive_utils.py` and `src/agent/drive_utils.py` are shallowly embedded
as executable Lean definitions over `String` / `List Char`; the theorems below
settle the specification claims about them.

Modeling conventions:
* Python `str` is modeled as Lean `String`, with the character-level work done on
  `String.data : List Char`.
* Python regex character classes are modeled on their ASCII fragment:
  `\s` is `pyIsSpace`, `\w` is `pyIsWordChar`.
* Each `re.sub` call of `clean_text` is modeled by a dedicated scanning function
  that performs the same leftmost, non-overlapping, greedy replacement.
* Fallible operations (downloads, third-party parsers) are modeled with `Option`
  / `Except`; the third-party libraries themselves (pandas, PyPDF2, python-docx,
  markdown) and the remote Drive service are parameters of the model, since the
  repository only consumes their extracted-text contract.
-/

namespace IntelligentAgent

/-- Python regex `\s` (ASCII fragment): space, tab, newline, carriage return,
vertical tab, form feed. -/
def pyIsSpace (c : Char) : Bool :=
  c = ' ' || c = '\t' || c = '\n' || c = '\r' || c = Char.ofNat 11 || c = Char.ofNat 12

/-- Python regex `\w` (ASCII fragment): letters, digits, underscore. -/
def pyIsWordChar (c : Char) : Bool :=
  c.isAlphanum || c = '_'

/-- The character allow-list of `clean_text` (file_processing.py line 48):
a character survives `re.sub(r'[^\w\s\.\,\!\?\;\:\-\(\)\[\]\"\'\/@\%\$\#\&\*\+\=\|\\\n]', '', text)`
iff this predicate holds. -/
def isAllowedChar (c : Char) : Bool :=
  pyIsWordChar c || pyIsSpace c ||
  c = '.' || c = ',' || c = '!' || c = '?' || c = ';' || c = ':' || c = '-' ||
  c = '(' || c = ')' || c = '[' || c = ']' || c = '"' || c = '\'' || c = '/' ||
  c = '@' || c = '%' || c = '$' || c = '#' || c = '&' || c = '*' || c = '+' ||
  c = '=' || c = '|' || c = '\\' || c = '\n'

/-- Scanner for `re.sub(r'\s+', ' ', text)`: every maximal whitespace run is
replaced by a single space.  The boolean flag records whether the scanner is
inside a whitespace run whose replacement space was already emitted. -/
def collapseWSAux : Bool → List Char → List Char
  | _, [] => []
  | prev, c :: rest =>
    if pyIsSpace c then
      if prev then collapseWSAux true rest
      else ' ' :: collapseWSAux true rest
    else c :: collapseWSAux false rest

/-- `re.sub(r'\s+', ' ', text)` (file_processing.py line 44). -/
def collapseWS (l : List Char) : List Char :=
  collapseWSAux false l

/-- Helper for the paragraph-break substitutions: given the characters that
follow a `'\n'`, return the remainder after the last `'\n'` inside the leading
whitespace run, if that run contains one.  This is where a greedy
`\n\s*\n`-style match ends. -/
def findLastNl : List Char → Option (List Char)
  | [] => none
  | c :: rest =>
    if pyIsSpace c then
      match findLastNl rest with
      | some r => some r
      | none => if c = '\n' then some rest else none
    else none

theorem findLastNl_length : ∀ l r, findLastNl l = some r → r.length < l.length := by
  intro l
  induction l with
  | nil => intro r h; simp [findLastNl] at h
  | cons c rest ih =>
    intro r h
    simp only [findLastNl] at h
    by_cases hs : pyIsSpace c
    · simp [hs] at h
      rcases hr : findLastNl rest with _ | r'
      · rw [hr] at h
        simp at h
        by_cases hn : c = '\n'
        · simp [hn] at h
          subst h
          simp
        · simp [hn] at h
      · rw [hr] at h
        simp at h
        subst h
        have := ih r' hr
        simp
        omega
    · simp [hs] at h

/-- Fuel-based scanner for `re.sub(r'\n\s*\n', '\n\n', text)`; the fuel only
bounds the recursion depth and `l.length` fuel always suffices. -/
def subOneNLFuel : Nat → List Char → List Char
  | 0, l => l
  | _ + 1, [] => []
  | fuel + 1, c :: rest =>
    if c = '\n' then
      match findLastNl rest with
      | some rem => '\n' :: '\n' :: subOneNLFuel fuel rem
      | none => c :: subOneNLFuel fuel rest
    else c :: subOneNLFuel fuel rest

/-- `re.sub(r'\n\s*\n', '\n\n', text)` (file_processing.py line 45): a newline
followed by a whitespace run that contains another newline is replaced by a
double newline; the greedy match ends at the last newline of the run. -/
def subOneNL (l : List Char) : List Char :=
  subOneNLFuel l.length l

/-- Fuel-based scanner for `re.sub(r'\n\s*\n\s*\n+', '\n\n', text)`. -/
def subMultiNLFuel : Nat → List Char → List Char
  | 0, l => l
  | _ + 1, [] => []
  | fuel + 1, c :: rest =>
    if c = '\n' ∧ 2 ≤ (rest.takeWhile pyIsSpace).count '\n' then
      match findLastNl rest with
      | some rem => '\n' :: '\n' :: subMultiNLFuel fuel rem
      | none => c :: subMultiNLFuel fuel rest
    else c :: subMultiNLFuel fuel rest

/-- `re.sub(r'\n\s*\n\s*\n+', '\n\n', text)` (file_processing.py line 59): a
newline whose following whitespace run contains at least two more newlines is
replaced, together with that run up to its last newline, by a double newline. -/
def subMultiNL (l : List Char) : List Char :=
  subMultiNLFuel l.length l

/-- Scanner for `re.sub(r'[\.]{3,}', '...', text)` (line 51): every maximal dot
run of length at least three is replaced by exactly three dots.  The counter is
the number of dots already emitted for the current run, capped at three. -/
def squashDotsAux : Nat → List Char → List Char
  | _, [] => []
  | k, c :: rest =>
    if c = '.' then
      if k < 3 then '.' :: squashDotsAux (k + 1) rest
      else squashDotsAux k rest
    else c :: squashDotsAux 0 rest

/-- `re.sub(r'[\.]{3,}', '...', text)`. -/
def squashDots (l : List Char) : List Char :=
  squashDotsAux 0 l

/-- Scanner for `re.sub(r'X{2,}', 'X', text)` with a single character `X`
(lines 52, 53 and 56): every maximal run of `ch` collapses to a single `ch`. -/
def dedupCharAux (ch : Char) : Bool → List Char → List Char
  | _, [] => []
  | inRun, c :: rest =>
    if c = ch then
      if inRun then dedupCharAux ch true rest
      else ch :: dedupCharAux ch true rest
    else c :: dedupCharAux ch false rest

/-- Collapse maximal runs of `ch` to a single occurrence. -/
def dedupChar (ch : Char) (l : List Char) : List Char :=
  dedupCharAux ch false l

/-- Remove trailing whitespace (the right half of Python `str.strip()`). -/
def dropTrailingWS : List Char → List Char
  | [] => []
  | c :: rest =>
    let r := dropTrailingWS rest
    if r.isEmpty && pyIsSpace c then [] else c :: r

/-- Python `str.strip()`: drop leading and trailing whitespace. -/
def pyStrip (l : List Char) : List Char :=
  dropTrailingWS (l.dropWhile pyIsSpace)

/-- The character-level pipeline of `FileProcessor.clean_text`
(file_processing.py lines 36-64), one stage per `re.sub` call plus the final
`strip`, in source order. -/
def cleanTextList (l : List Char) : List Char :=
  pyStrip (subMultiNL (dedupChar ' '
    (dedupChar '?' (dedupChar '!' (squashDots
      (List.filter isAllowedChar (subOneNL (collapseWS l))))))))

/-- `FileProcessor.clean_text` (file_processing.py lines 36-64). -/
def clean_text (s : String) : String :=
  if s = "" then "" else ⟨cleanTextList s.data⟩

/-- Python `text.split('\n\n')` (non-overlapping, leftmost): a separator is
consumed exactly when the next two characters are both newlines. -/
def splitParaAux (acc : List Char) : List Char → List (List Char)
  | [] => [acc.reverse]
  | [c] => [(c :: acc).reverse]
  | c :: c2 :: rest2 =>
    if c = '\n' ∧ c2 = '\n' then acc.reverse :: splitParaAux [] rest2
    else splitParaAux (c :: acc) (c2 :: rest2)

/-- Python `text.split('\n\n')`. -/
def splitPara (l : List Char) : List (List Char) :=
  splitParaAux [] l

/-- The sentence-terminator class `[.!?]` of `re.split(r'[.!?]+', section)`. -/
def isSentEnd (c : Char) : Bool :=
  c = '.' || c = '!' || c = '?'

/-- Python `re.split(r'[.!?]+', section)`: pieces between maximal terminator
runs, with empty pieces at the boundary when a run touches an end. -/
def splitSentAux (acc : List Char) (inRun : Bool) : List Char → List (List Char)
  | [] => [acc.reverse]
  | c :: rest =>
    if isSentEnd c then
      if inRun then splitSentAux acc true rest
      else acc.reverse :: splitSentAux [] true rest
    else splitSentAux (c :: acc) false rest

/-- Python `re.split(r'[.!?]+', section)`. -/
def splitSentences (l : List Char) : List (List Char) :=
  splitSentAux [] false l

/-- Python `str.split()` with no argument: split on whitespace runs, dropping
empty pieces. -/
def pySplitWSAux (acc : List Char) : List Char → List (List Char)
  | [] => if acc.isEmpty then [] else [acc.reverse]
  | c :: rest =>
    if pyIsSpace c then
      if acc.isEmpty then pySplitWSAux [] rest
      else acc.reverse :: pySplitWSAux [] rest
    else pySplitWSAux (c :: acc) rest

/-- Python `str.split()`. -/
def pySplitWS (l : List Char) : List (List Char) :=
  pySplitWSAux [] l

/-- Python `" ".join(words)`. -/
def joinSpace : List (List Char) → List Char
  | [] => []
  | [w] => w
  | w :: ws => w ++ ' ' :: joinSpace ws

/-- The sentence-accumulation loop of `truncate_content`
(file_processing.py lines 137-142): add sentences (re-terminated by `". "`)
while the Python-int comparison `len(truncated + sentence) <= max_length - 50`
holds, and stop at the first failure. -/
def sentenceLoop (maxLength : Nat) : List (List Char) → List Char → List Char
  | [], tr => tr
  | st :: rest, tr =>
    if (tr.length + st.length : Int) ≤ (maxLength : Int) - 50 then
      sentenceLoop maxLength rest (tr ++ st ++ ['.', ' '])
    else tr

/-- The section-accumulation loop of `truncate_content`
(file_processing.py lines 132-143): add whole `"\n\n"`-terminated sections while
`len(truncated + section) <= max_length - 100` holds; on the first oversized
section fall back to its sentence loop and stop. -/
def sectionLoop (maxLength : Nat) : List (List Char) → List Char → List Char
  | [], tr => tr
  | sec :: rest, tr =>
    if (tr.length + sec.length : Int) ≤ (maxLength : Int) - 100 then
      sectionLoop maxLength rest (tr ++ sec ++ ['\n', '\n'])
    else sentenceLoop maxLength (splitSentences sec) tr

/-- `FileProcessor.truncate_content` (file_processing.py lines 121-153). -/
def truncate_content (s : String) (maxLength : Nat := 1000) : String :=
  if s = "" ∨ s.length ≤ maxLength then s
  else
    let text := s.data
    let tr0 := sectionLoop maxLength (splitPara text) []
    let tr1 :=
      if pyStrip tr0 = [] then
        let ws := pySplitWS (text.take maxLength)
        if ws.length > 1 then joinSpace ws.dropLast
        else text.take maxLength
      else tr0
    ⟨pyStrip tr1 ++ ['.', '.', '.']⟩

/-! ### Invariants of the `clean_text` pipeline -/

/-- Every whitespace character of `l` is a plain space. -/
def wsOnly (l : List Char) : Prop :=
  ∀ c ∈ l, pyIsSpace c = true → c = ' '

/-- Every character of `l` survives the allow-list filter. -/
def allAllowed (l : List Char) : Prop :=
  ∀ c ∈ l, isAllowedChar c = true

/-- Checker that every maximal run of `ch` in the list has length at most `k`,
where the first argument is the number of `ch`-characters immediately
preceding the list. -/
def rbAux (ch : Char) (k : Nat) : Nat → List Char → Bool
  | _, [] => true
  | j, c :: rest =>
    if c = ch then decide (j + 1 ≤ k) && rbAux ch k (j + 1) rest
    else rbAux ch k 0 rest

/-- Every maximal run of `ch` in `l` has length at most `k`. -/
def runBound (ch : Char) (k : Nat) (l : List Char) : Bool :=
  rbAux ch k 0 l

theorem rbAux_mono {ch : Char} {k : Nat} :
    ∀ l j j', j' ≤ j → rbAux ch k j l = true → rbAux ch k j' l = true := by
  intro l
  induction l with
  | nil => intro j j' _ _; simp [rbAux]
  | cons c rest ih =>
    intro j j' hle h
    simp only [rbAux] at h ⊢
    by_cases hc : c = ch
    · simp only [hc, if_true, Bool.and_eq_true, decide_eq_true_eq] at h ⊢
      exact ⟨by omega, ih (j + 1) (j' + 1) (by omega) h.2⟩
    · simp only [hc, if_false] at h ⊢
      exact h

theorem collapseWSAux_mem {P : Char → Prop} (hP : P ' ') :
    ∀ l b, (∀ c ∈ l, P c) → ∀ c ∈ collapseWSAux b l, P c := by
  intro l
  induction l with
  | nil => intro b _ c hc; simp [collapseWSAux] at hc
  | cons x rest ih =>
    intro b hl c hc
    simp only [collapseWSAux] at hc
    by_cases hs : pyIsSpace x
    · simp only [hs, if_true] at hc
      cases b with
      | true =>
        simp only [if_true] at hc
        exact ih true (fun d hd => hl d (List.mem_cons_of_mem _ hd)) c hc
      | false =>
        simp only [Bool.false_eq_true, if_false, List.mem_cons] at hc
        rcases hc with rfl | hc
        · exact hP
        · exact ih true (fun d hd => hl d (List.mem_cons_of_mem _ hd)) c hc
    · simp [hs, List.mem_cons] at hc
      rcases hc with rfl | hc
      · exact hl c (List.mem_cons_self _ _)
      · exact ih false (fun d hd => hl d (List.mem_cons_of_mem _ hd)) c hc

theorem squashDotsAux_mem {P : Char → Prop} (hP : P '.') :
    ∀ l k, (∀ c ∈ l, P c) → ∀ c ∈ squashDotsAux k l, P c := by
  intro l
  induction l with
  | nil => intro k _ c hc; simp [squashDotsAux] at hc
  | cons x rest ih =>
    intro k hl c hc
    simp only [squashDotsAux] at hc
    by_cases hd : x = '.'
    · simp only [hd, if_true] at hc
      by_cases hk : k < 3
      · simp only [hk, if_true, List.mem_cons] at hc
        rcases hc with rfl | hc
        · exact hP
        · exact ih (k + 1) (fun d hd2 => hl d (List.mem_cons_of_mem _ hd2)) c hc
      · simp only [hk, if_false] at hc
        exact ih k (fun d hd2 => hl d (List.mem_cons_of_mem _ hd2)) c hc
    · simp only [hd, if_false, List.mem_cons] at hc
      rcases hc with rfl | hc
      · exact hl c (List.mem_cons_self _ _)
      · exact ih 0 (fun d hd2 => hl d (List.mem_cons_of_mem _ hd2)) c hc

theorem dedupCharAux_mem {P : Char → Prop} {ch : Char} (hP : P ch) :
    ∀ l b, (∀ c ∈ l, P c) → ∀ c ∈ dedupCharAux ch b l, P c := by
  intro l
  induction l with
  | nil => intro b _ c hc; simp [dedupCharAux] at hc
  | cons x rest ih =>
    intro b hl c hc
    simp only [dedupCharAux] at hc
    by_cases hx : x = ch
    · simp only [hx, if_true] at hc
      cases b with
      | true =>
        simp only [if_true] at hc
        exact ih true (fun d hd => hl d (List.mem_cons_of_mem _ hd)) c hc
      | false =>
        simp only [Bool.false_eq_true, if_false, List.mem_cons] at hc
        rcases hc with rfl | hc
        · exact hP
        · exact ih true (fun d hd => hl d (List.mem_cons_of_mem _ hd)) c hc
    · simp only [hx, if_false, List.mem_cons] at hc
      rcases hc with rfl | hc
      · exact hl c (List.mem_cons_self _ _)
      · exact ih false (fun d hd => hl d (List.mem_cons_of_mem _ hd)) c hc

theorem dropTrailingWS_mem :
    ∀ l (c : Char), c ∈ dropTrailingWS l → c ∈ l := by
  intro l
  induction l with
  | nil => intro c hc; simp [dropTrailingWS] at hc
  | cons x rest ih =>
    intro c hc
    simp only [dropTrailingWS] at hc
    by_cases h : (dropTrailingWS rest).isEmpty && pyIsSpace x
    · simp [h] at hc
    · simp [h, List.mem_cons] at hc
      rcases hc with rfl | hc
      · exact List.mem_cons_self _ _
      · exact List.mem_cons_of_mem _ (ih c hc)

theorem pyStrip_mem : ∀ l (c : Char), c ∈ pyStrip l → c ∈ l := by
  intro l c hc
  exact (List.dropWhile_sublist _).subset (dropTrailingWS_mem _ c hc)

theorem collapseWSAux_wsOnly : ∀ l b, wsOnly (collapseWSAux b l) := by
  intro l
  induction l with
  | nil => intro b c hc; simp [collapseWSAux] at hc
  | cons x rest ih =>
    intro b c hc
    simp only [collapseWSAux] at hc
    by_cases hs : pyIsSpace x
    · simp only [hs, if_true] at hc
      cases b with
      | true =>
        simp only [if_true] at hc
        exact ih true c hc
      | false =>
        simp [List.mem_cons] at hc
        rcases hc with rfl | hc
        · intro _; rfl
        · exact ih true c hc
    · simp [hs, List.mem_cons] at hc
      rcases hc with rfl | hc
      · intro habs
        exact absurd habs hs
      · exact ih false c hc

theorem collapseWSAux_space_rb :
    ∀ l b, rbAux ' ' 1 (if b then 1 else 0) (collapseWSAux b l) = true := by
  intro l
  induction l with
  | nil => intro b; simp [collapseWSAux, rbAux]
  | cons x rest ih =>
    intro b
    simp only [collapseWSAux]
    by_cases hs : pyIsSpace x
    · simp only [hs, if_true]
      cases b with
      | true => simpa using ih true
      | false =>
        have hsp : ' ' = ' ' := rfl
        simp only [Bool.false_eq_true, if_false, rbAux, hsp, if_true]
        simpa using ih true
    · simp only [hs, if_false]
      have hxs : x ≠ ' ' := by
        intro h
        rw [h] at hs
        simp [pyIsSpace] at hs
      cases b with
      | true =>
        simp only [rbAux, hxs, if_false]
        simpa using ih false
      | false =>
        simp only [rbAux, hxs, if_false]
        simpa using ih false

theorem dedupCharAux_establishes (ch : Char) :
    ∀ l b, rbAux ch 1 (if b then 1 else 0) (dedupCharAux ch b l) = true := by
  intro l
  induction l with
  | nil => intro b; simp [dedupCharAux, rbAux]
  | cons x rest ih =>
    intro b
    simp only [dedupCharAux]
    by_cases hx : x = ch
    · simp only [hx, if_true]
      cases b with
      | true => simpa using ih true
      | false =>
        simp only [Bool.false_eq_true, if_false, rbAux, if_true]
        simpa using ih true
    · simp only [hx, if_false, rbAux]
      simpa using ih false

theorem dedupCharAux_preserves {d ch : Char} (hne : d ≠ ch) (k : Nat) :
    ∀ l j, rbAux d k j l = true →
      rbAux d k j (dedupCharAux ch false l) = true ∧
      rbAux d k 0 (dedupCharAux ch true l) = true := by
  intro l
  induction l with
  | nil => intro j _; simp [dedupCharAux, rbAux]
  | cons x rest ih =>
    intro j h
    by_cases hx : x = ch
    · have hxd : ¬(x = d) := fun hh => hne (hh.symm.trans hx)
      simp only [rbAux, if_neg hxd] at h
      have hcd : ¬(ch = d) := fun hh => hne hh.symm
      simp only [dedupCharAux, if_pos hx, rbAux, if_neg hcd]
      exact ⟨(ih 0 h).2, (ih 0 h).2⟩
    · by_cases hxd : x = d
      · simp only [rbAux, if_pos hxd, Bool.and_eq_true, decide_eq_true_eq] at h
        simp only [dedupCharAux, if_neg hx, rbAux, if_pos hxd, Bool.and_eq_true,
          decide_eq_true_eq]
        refine ⟨⟨h.1, (ih (j + 1) h.2).1⟩, by omega, ?_⟩
        exact (ih 1 (rbAux_mono rest (j + 1) 1 (by omega) h.2)).1
      · simp only [rbAux, if_neg hxd] at h
        simp only [dedupCharAux, if_neg hx, rbAux, if_neg hxd]
        exact ⟨(ih 0 h).1, (ih 0 h).1⟩

theorem squashDotsAux_establishes :
    ∀ l j, j ≤ 3 → rbAux '.' 3 j (squashDotsAux j l) = true := by
  intro l
  induction l with
  | nil => intro j _; simp [squashDotsAux, rbAux]
  | cons x rest ih =>
    intro j hj
    simp only [squashDotsAux]
    by_cases hx : x = '.'
    · simp only [hx, if_true]
      by_cases hk : j < 3
      · simp only [hk, if_true, rbAux, if_pos rfl, Bool.and_eq_true, decide_eq_true_eq]
        exact ⟨by omega, ih (j + 1) (by omega)⟩
      · simp only [hk, if_false]
        exact ih j hj
    · simp only [hx, if_false, rbAux, if_neg (fun hh => hx hh)]
      exact ih 0 (by omega)

theorem squashDotsAux_preserves {d : Char} (hne : d ≠ '.') (k : Nat) :
    ∀ l j, rbAux d k j l = true →
      rbAux d k j (squashDotsAux 0 l) = true ∧
      ∀ m, rbAux d k 0 (squashDotsAux (m + 1) l) = true := by
  intro l
  induction l with
  | nil => intro j _; simp [squashDotsAux, rbAux]
  | cons x rest ih =>
    intro j h
    by_cases hx : x = '.'
    · have hxd : ¬(x = d) := fun hh => hne (hh.symm.trans hx)
      have hdd : ¬('.' = d) := fun hh => hne hh.symm
      simp only [rbAux, if_neg hxd] at h
      constructor
      · simp only [squashDotsAux, if_pos hx, if_pos (by omega : (0:Nat) < 3), rbAux,
          if_neg hdd]
        exact (ih 0 h).2 0
      · intro m
        simp only [squashDotsAux, if_pos hx]
        by_cases hm : m + 1 < 3
        · simp only [hm, if_true, rbAux, if_neg hdd]
          exact (ih 0 h).2 (m + 1)
        · simp only [hm, if_false]
          exact (ih 0 h).2 m
    · by_cases hxd : x = d
      · simp only [rbAux, if_pos hxd, Bool.and_eq_true, decide_eq_true_eq] at h
        constructor
        · simp only [squashDotsAux, if_neg hx, rbAux, if_pos hxd, Bool.and_eq_true,
            decide_eq_true_eq]
          exact ⟨h.1, (ih (j + 1) h.2).1⟩
        · intro m
          simp only [squashDotsAux, if_neg hx, rbAux, if_pos hxd, Bool.and_eq_true,
            decide_eq_true_eq]
          refine ⟨by omega, ?_⟩
          exact (ih 1 (rbAux_mono rest (j + 1) 1 (by omega) h.2)).1
      · simp only [rbAux, if_neg hxd] at h
        constructor
        · simp only [squashDotsAux, if_neg hx, rbAux, if_neg hxd]
          exact (ih 0 h).1
        · intro m
          simp only [squashDotsAux, if_neg hx, rbAux, if_neg hxd]
          exact (ih 0 h).1

theorem subOneNLFuel_id :
    ∀ fuel l, ('\n' ∉ l) → subOneNLFuel fuel l = l := by
  intro fuel
  induction fuel with
  | zero => intro l _; simp [subOneNLFuel]
  | succ n ih =>
    intro l hl
    cases l with
    | nil => simp [subOneNLFuel]
    | cons c rest =>
      have hc : c ≠ '\n' := fun h => hl (h ▸ List.mem_cons_self _ _)
      simp only [subOneNLFuel, hc, if_false]
      rw [ih rest (fun h => hl (List.mem_cons_of_mem _ h))]

theorem subMultiNLFuel_id :
    ∀ fuel l, ('\n' ∉ l) → subMultiNLFuel fuel l = l := by
  intro fuel
  induction fuel with
  | zero => intro l _; simp [subMultiNLFuel]
  | succ n ih =>
    intro l hl
    cases l with
    | nil => simp [subMultiNLFuel]
    | cons c rest =>
      have hc : c ≠ '\n' := fun h => hl (h ▸ List.mem_cons_self _ _)
      simp only [subMultiNLFuel, hc, false_and, if_false]
      rw [ih rest (fun h => hl (List.mem_cons_of_mem _ h))]

theorem wsOnly_not_nl {l : List Char} (h : wsOnly l) : '\n' ∉ l := by
  intro hmem
  have := h '\n' hmem (by decide)
  cases this

theorem collapseWSAux_id :
    ∀ l b, wsOnly l → rbAux ' ' 1 (if b then 1 else 0) l = true → collapseWSAux b l = l := by
  intro l
  induction l with
  | nil => intro b _ _; simp [collapseWSAux]
  | cons x rest ih =>
    intro b hws hrb
    by_cases hs : pyIsSpace x
    · have hx : x = ' ' := hws x (List.mem_cons_self _ _) hs
      subst hx
      cases b with
      | true => simp [rbAux] at hrb
      | false =>
        simp [rbAux] at hrb
        simp only [collapseWSAux, hs, if_true, Bool.false_eq_true, if_false, List.cons.injEq,
          true_and]
        exact ih true (fun c hc hsp => hws c (List.mem_cons_of_mem _ hc) hsp) (by simpa using hrb)
    · have hx : ¬(x = ' ') := fun hh => hs (by rw [hh]; decide)
      simp only [rbAux, if_neg hx] at hrb
      simp only [collapseWSAux, hs, if_false, Bool.false_eq_true, List.cons.injEq, true_and]
      exact ih false (fun c hc hsp => hws c (List.mem_cons_of_mem _ hc) hsp) (by simpa using hrb)

theorem squashDotsAux_id :
    ∀ l j, rbAux '.' 3 j l = true → squashDotsAux j l = l := by
  intro l
  induction l with
  | nil => intro j _; simp [squashDotsAux]
  | cons x rest ih =>
    intro j hrb
    by_cases hx : x = '.'
    · simp only [rbAux, if_pos hx, Bool.and_eq_true, decide_eq_true_eq] at hrb
      simp only [squashDotsAux, if_pos hx, if_pos (by omega : j < 3)]
      rw [hx, ih (j + 1) hrb.2]
    · simp only [rbAux, if_neg hx] at hrb
      simp only [squashDotsAux, if_neg hx]
      rw [ih 0 hrb]

theorem dedupCharAux_id {ch : Char} :
    ∀ l b, rbAux ch 1 (if b then 1 else 0) l = true → dedupCharAux ch b l = l := by
  intro l
  induction l with
  | nil => intro b _; simp [dedupCharAux]
  | cons x rest ih =>
    intro b hrb
    by_cases hx : x = ch
    · subst hx
      cases b with
      | true => simp [rbAux] at hrb
      | false =>
        simp [rbAux] at hrb
        simp only [dedupCharAux]
        simp
        exact ih true (by simpa using hrb)
    · simp only [rbAux, if_neg hx] at hrb
      simp only [dedupCharAux, if_neg hx, List.cons.injEq, true_and]
      exact ih false (by simpa using hrb)

/-- The head of `l`, when present, is not whitespace. -/
def headOK (l : List Char) : Prop :=
  ∀ c, l.head? = some c → pyIsSpace c = false

/-- The last element of `l`, when present, is not whitespace. -/
def lastOK (l : List Char) : Prop :=
  ∀ c, l.getLast? = some c → pyIsSpace c = false

theorem dropWhile_headOK : ∀ l : List Char, headOK (l.dropWhile pyIsSpace) := by
  intro l
  induction l with
  | nil => intro c hc; simp at hc
  | cons x rest ih =>
    by_cases hs : pyIsSpace x
    · simpa [List.dropWhile, hs] using ih
    · intro c hc
      simp [List.dropWhile, hs] at hc
      rw [← hc]
      simpa using hs

theorem dropTrailingWS_lastOK : ∀ l : List Char, lastOK (dropTrailingWS l) := by
  intro l
  induction l with
  | nil => intro c hc; simp [dropTrailingWS] at hc
  | cons x rest ih =>
    intro c hc
    simp only [dropTrailingWS] at hc
    by_cases h : (dropTrailingWS rest).isEmpty && pyIsSpace x
    · simp [h] at hc
    · rw [Bool.not_eq_true] at h
      simp only [h, Bool.false_eq_true, if_false] at hc
      by_cases hre : dropTrailingWS rest = []
      · rw [hre] at h
        simp at h
        simp only [hre, List.getLast?_singleton, Option.some.injEq] at hc
        rw [← hc]
        exact h
      · rcases hdtw : dropTrailingWS rest with _ | ⟨y, ys⟩
        · exact absurd hdtw hre
        · rw [hdtw, List.getLast?_cons_cons] at hc
          apply ih c
          rw [hdtw]
          exact hc

theorem dropTrailingWS_head :
    ∀ l : List Char, dropTrailingWS l = [] ∨ (dropTrailingWS l).head? = l.head? := by
  intro l
  cases l with
  | nil => left; simp [dropTrailingWS]
  | cons x rest =>
    simp only [dropTrailingWS]
    by_cases h : (dropTrailingWS rest).isEmpty && pyIsSpace x
    · left; simp [h]
    · right; simp [h]

theorem pyStrip_headOK (l : List Char) : headOK (pyStrip l) := by
  unfold pyStrip
  rcases dropTrailingWS_head (l.dropWhile pyIsSpace) with h | h
  · rw [h]; intro c hc; simp at hc
  · intro c hc
    rw [h] at hc
    exact dropWhile_headOK l c hc

theorem pyStrip_lastOK (l : List Char) : lastOK (pyStrip l) :=
  dropTrailingWS_lastOK _

theorem dropWhile_id_of_headOK {l : List Char} (h : headOK l) :
    l.dropWhile pyIsSpace = l := by
  cases l with
  | nil => simp
  | cons x rest =>
    have := h x (by simp)
    simp [List.dropWhile, this]

theorem dropTrailingWS_id_of_lastOK :
    ∀ l : List Char, lastOK l → dropTrailingWS l = l := by
  intro l
  induction l with
  | nil => intro _; simp [dropTrailingWS]
  | cons x rest ih =>
    intro hlast
    by_cases hre : rest = []
    · subst hre
      have hx := hlast x (List.getLast?_singleton x)
      simp [dropTrailingWS, hx]
    · have hrest : lastOK rest := by
        intro c hc
        apply hlast c
        rcases List.exists_cons_of_ne_nil hre with ⟨y, ys, hys⟩
        rw [hys] at hc ⊢
        rw [List.getLast?_cons_cons]
        exact hc
      have hr := ih hrest
      have hemp : rest.isEmpty = false := by simpa [List.isEmpty_iff] using hre
      simp only [dropTrailingWS, hr, hemp]
      simp

theorem pyStrip_id {l : List Char} (h1 : headOK l) (h2 : lastOK l) : pyStrip l = l := by
  unfold pyStrip
  rw [dropWhile_id_of_headOK h1, dropTrailingWS_id_of_lastOK l h2]

theorem rbAux_dropWhile {ch : Char} {k : Nat} {p : Char → Bool} :
    ∀ l j, rbAux ch k j l = true → rbAux ch k 0 (l.dropWhile p) = true := by
  intro l
  induction l with
  | nil => intro j _; simp [rbAux]
  | cons x rest ih =>
    intro j h
    by_cases hp : p x
    · simp only [List.dropWhile, hp]
      by_cases hx : x = ch
      · simp only [rbAux, if_pos hx, Bool.and_eq_true, decide_eq_true_eq] at h
        exact ih (j + 1) h.2
      · simp only [rbAux, if_neg hx] at h
        exact ih 0 h
    · simp only [List.dropWhile, hp]
      exact rbAux_mono _ j 0 (by omega) h

theorem rbAux_dropTrailingWS {ch : Char} {k : Nat} :
    ∀ l j, rbAux ch k j l = true → rbAux ch k j (dropTrailingWS l) = true := by
  intro l
  induction l with
  | nil => intro j _; simp [dropTrailingWS, rbAux]
  | cons x rest ih =>
    intro j h
    simp only [dropTrailingWS]
    by_cases hcond : (dropTrailingWS rest).isEmpty && pyIsSpace x
    · simp [hcond, rbAux]
    · simp only [hcond, if_false]
      by_cases hx : x = ch
      · simp only [rbAux, if_pos hx, Bool.and_eq_true, decide_eq_true_eq] at h ⊢
        exact ⟨h.1, ih (j + 1) h.2⟩
      · simp only [rbAux, if_neg hx] at h ⊢
        exact ih 0 h

theorem runBound_pyStrip {ch : Char} {k : Nat} {l : List Char}
    (h : runBound ch k l = true) : runBound ch k (pyStrip l) = true :=
  rbAux_dropTrailingWS _ 0 (rbAux_dropWhile l 0 h)

theorem subOneNL_id {l : List Char} (h : '\n' ∉ l) : subOneNL l = l :=
  subOneNLFuel_id _ l h

theorem subMultiNL_id {l : List Char} (h : '\n' ∉ l) : subMultiNL l = l :=
  subMultiNLFuel_id _ l h

theorem collapseWS_wsOnly (l : List Char) : wsOnly (collapseWS l) :=
  collapseWSAux_wsOnly l false

theorem collapseWS_rb (l : List Char) : runBound ' ' 1 (collapseWS l) = true := by
  simpa using collapseWSAux_space_rb l false

theorem squashDots_rb (l : List Char) : runBound '.' 3 (squashDots l) = true :=
  squashDotsAux_establishes l 0 (by omega)

theorem squashDots_pres {d : Char} (hne : d ≠ '.') {k : Nat} {l : List Char}
    (h : runBound d k l = true) : runBound d k (squashDots l) = true :=
  (squashDotsAux_preserves hne k l 0 h).1

theorem dedupChar_rb (ch : Char) (l : List Char) : runBound ch 1 (dedupChar ch l) = true := by
  simpa using dedupCharAux_establishes ch l false

theorem dedupChar_pres {d ch : Char} (hne : d ≠ ch) {k : Nat} {l : List Char}
    (h : runBound d k l = true) : runBound d k (dedupChar ch l) = true :=
  (dedupCharAux_preserves hne k l 0 h).1

theorem collapseWS_id {l : List Char} (h1 : wsOnly l) (h2 : runBound ' ' 1 l = true) :
    collapseWS l = l :=
  collapseWSAux_id l false h1 (by simpa using h2)

theorem squashDots_id {l : List Char} (h : runBound '.' 3 l = true) : squashDots l = l :=
  squashDotsAux_id l 0 h

theorem dedupChar_id {ch : Char} {l : List Char} (h : runBound ch 1 l = true) :
    dedupChar ch l = l :=
  dedupCharAux_id l false (by simpa using h)

/-- Characterization of cleaned text: allow-listed characters only, every
whitespace character is a single space, bounded punctuation runs, single
spaces, and no leading or trailing whitespace. -/
def cleanedOK (l : List Char) : Prop :=
  allAllowed l ∧ wsOnly l ∧
  runBound '.' 3 l = true ∧ runBound '!' 1 l = true ∧
  runBound '?' 1 l = true ∧ runBound ' ' 1 l = true ∧
  headOK l ∧ lastOK l

theorem cleanTextList_cleanedOK (l : List Char) : cleanedOK (cleanTextList l) := by
  unfold cleanTextList
  have hW0 : wsOnly (collapseWS l) := collapseWS_wsOnly l
  rw [subOneNL_id (wsOnly_not_nl hW0)]
  have hA2 : allAllowed (List.filter isAllowedChar (collapseWS l)) :=
    fun c hc => List.of_mem_filter hc
  have hW2 : wsOnly (List.filter isAllowedChar (collapseWS l)) :=
    fun c hc h => hW0 c (List.mem_of_mem_filter hc) h
  have hD3 := squashDots_rb (List.filter isAllowedChar (collapseWS l))
  have hA3 : allAllowed (squashDots (List.filter isAllowedChar (collapseWS l))) :=
    squashDotsAux_mem (by decide) _ 0 hA2
  have hW3 : wsOnly (squashDots (List.filter isAllowedChar (collapseWS l))) :=
    squashDotsAux_mem (P := fun c => pyIsSpace c = true → c = ' ') (by decide) _ 0 hW2
  have hE4 := dedupChar_rb '!' (squashDots (List.filter isAllowedChar (collapseWS l)))
  have hD4 := dedupChar_pres (by decide : '.' ≠ '!') hD3
  have hA4 : allAllowed (dedupChar '!' (squashDots (List.filter isAllowedChar (collapseWS l)))) :=
    dedupCharAux_mem (by decide) _ false hA3
  have hW4 : wsOnly (dedupChar '!' (squashDots (List.filter isAllowedChar (collapseWS l)))) :=
    dedupCharAux_mem (P := fun c => pyIsSpace c = true → c = ' ') (by decide) _ false hW3
  have hE5 := dedupChar_rb '?'
    (dedupChar '!' (squashDots (List.filter isAllowedChar (collapseWS l))))
  have hD5 := dedupChar_pres (by decide : '.' ≠ '?') hD4
  have hE45 := dedupChar_pres (by decide : '!' ≠ '?') hE4
  have hA5 : allAllowed (dedupChar '?'
      (dedupChar '!' (squashDots (List.filter isAllowedChar (collapseWS l))))) :=
    dedupCharAux_mem (by decide) _ false hA4
  have hW5 : wsOnly (dedupChar '?'
      (dedupChar '!' (squashDots (List.filter isAllowedChar (collapseWS l))))) :=
    dedupCharAux_mem (P := fun c => pyIsSpace c = true → c = ' ') (by decide) _ false hW4
  have hSp6 := dedupChar_rb ' ' (dedupChar '?'
    (dedupChar '!' (squashDots (List.filter isAllowedChar (collapseWS l)))))
  have hD6 := dedupChar_pres (by decide : '.' ≠ ' ') hD5
  have hE46 := dedupChar_pres (by decide : '!' ≠ ' ') hE45
  have hE56 := dedupChar_pres (by decide : '?' ≠ ' ') hE5
  have hA6 : allAllowed (dedupChar ' ' (dedupChar '?'
      (dedupChar '!' (squashDots (List.filter isAllowedChar (collapseWS l)))))) :=
    dedupCharAux_mem (by decide) _ false hA5
  have hW6 : wsOnly (dedupChar ' ' (dedupChar '?'
      (dedupChar '!' (squashDots (List.filter isAllowedChar (collapseWS l)))))) :=
    dedupCharAux_mem (P := fun c => pyIsSpace c = true → c = ' ') (by decide) _ false hW5
  rw [subMultiNL_id (wsOnly_not_nl hW6)]
  refine ⟨fun c hc => hA6 c (pyStrip_mem _ c hc),
    fun c hc h => hW6 c (pyStrip_mem _ c hc) h,
    runBound_pyStrip hD6, runBound_pyStrip hE46, runBound_pyStrip hE56,
    runBound_pyStrip hSp6, pyStrip_headOK _, pyStrip_lastOK _⟩

theorem cleanTextList_id {l : List Char} (h : cleanedOK l) : cleanTextList l = l := by
  obtain ⟨hA, hW, hD, hE1, hE2, hSp, hH, hL⟩ := h
  unfold cleanTextList
  rw [collapseWS_id hW hSp, subOneNL_id (wsOnly_not_nl hW),
    List.filter_eq_self.mpr hA, squashDots_id hD, dedupChar_id hE1, dedupChar_id hE2,
    dedupChar_id hSp, subMultiNL_id (wsOnly_not_nl hW)]
  exact pyStrip_id hH hL

theorem cleanTextList_idem (l : List Char) :
    cleanTextList (cleanTextList l) = cleanTextList l :=
  cleanTextList_id (cleanTextList_cleanedOK l)

theorem splitParaAux_no_nl :
    ∀ l acc, '\n' ∉ l → splitParaAux acc l = [acc.reverse ++ l] := by
  intro l
  induction l with
  | nil => intro acc _; simp [splitParaAux]
  | cons c rest ih =>
    intro acc hnl
    have hc : ¬(c = '\n') := fun h => hnl (h ▸ List.mem_cons_self _ _)
    cases rest with
    | nil =>
      simp [splitParaAux]
    | cons c2 rest2 =>
      have hcond : ¬(c = '\n' ∧ c2 = '\n') := fun h => hc h.1
      simp only [splitParaAux, if_neg hcond]
      rw [ih (c :: acc) (fun h => hnl (List.mem_cons_of_mem _ h))]
      rw [List.reverse_cons, List.append_assoc]
      rfl

theorem splitPara_no_nl {l : List Char} (h : '\n' ∉ l) : splitPara l = [l] := by
  simpa using splitParaAux_no_nl l [] h

/-! ### Length bounds for `truncate_content` -/

theorem sentenceLoop_length (M : Nat) :
    ∀ sts (tr : List Char), (sentenceLoop M sts tr).length ≤ tr.length ∨
      ((sentenceLoop M sts tr).length : Int) ≤ (M : Int) - 48 := by
  intro sts
  induction sts with
  | nil => intro tr; left; simp [sentenceLoop]
  | cons st rest ih =>
    intro tr
    simp only [sentenceLoop]
    split
    · next hfit =>
      have hlen : (tr ++ st ++ ['.', ' ']).length = tr.length + st.length + 2 := by
        simp
        omega
      rcases ih (tr ++ st ++ ['.', ' ']) with h | h
      · right
        rw [hlen] at h
        omega
      · right
        exact h
    · left
      exact Nat.le_refl _

theorem sectionLoop_length (M : Nat) :
    ∀ secs (tr : List Char), (sectionLoop M secs tr).length ≤ tr.length ∨
      ((sectionLoop M secs tr).length : Int) ≤ (M : Int) - 48 := by
  intro secs
  induction secs with
  | nil => intro tr; left; simp [sectionLoop]
  | cons sec rest ih =>
    intro tr
    simp only [sectionLoop]
    split
    · next hfit =>
      have hlen : (tr ++ sec ++ ['\n', '\n']).length = tr.length + sec.length + 2 := by
        simp
        omega
      rcases ih (tr ++ sec ++ ['\n', '\n']) with h | h
      · right
        rw [hlen] at h
        omega
      · right
        exact h
    · next hfit =>
      exact sentenceLoop_length M (splitSentences sec) tr

theorem dropTrailingWS_length_le : ∀ l : List Char, (dropTrailingWS l).length ≤ l.length := by
  intro l
  induction l with
  | nil => simp [dropTrailingWS]
  | cons x rest ih =>
    simp only [dropTrailingWS]
    split
    · simp
    · simpa using ih

theorem pyStrip_length_le (l : List Char) : (pyStrip l).length ≤ l.length :=
  Nat.le_trans (dropTrailingWS_length_le _) (List.Sublist.length_le (List.dropWhile_sublist _))

theorem joinSpace_pySplitWSAux_length :
    ∀ (l acc : List Char), (joinSpace (pySplitWSAux acc l)).length ≤ acc.length + l.length := by
  intro l
  induction l with
  | nil =>
    intro acc
    by_cases hacc : acc.isEmpty
    · simp [pySplitWSAux, hacc, joinSpace]
    · simp [pySplitWSAux, hacc, joinSpace]
  | cons c rest ih =>
    intro acc
    simp only [pySplitWSAux]
    by_cases hs : pyIsSpace c
    · simp only [hs, if_true]
      by_cases hacc : acc.isEmpty
      · simp only [hacc, if_true]
        have := ih []
        simp at this
        simp
        omega
      · simp only [hacc, Bool.false_eq_true, if_false]
        rcases hsp : pySplitWSAux [] rest with _ | ⟨w, ws⟩
        · simp only [joinSpace]
          simp
        · have := ih []
          rw [hsp] at this
          simp only [List.length_nil, Nat.zero_add] at this
          simp only [joinSpace, List.length_append, List.length_cons, List.length_reverse]
          omega
    · simp only [hs, if_false]
      have := ih (c :: acc)
      simp at this
      simp
      omega

theorem joinSpace_dropLast_length :
    ∀ ws : List (List Char), (joinSpace ws.dropLast).length ≤ (joinSpace ws).length := by
  intro ws
  induction ws with
  | nil => simp
  | cons w rest ih =>
    cases rest with
    | nil => simp [joinSpace]
    | cons w2 ws2 =>
      rw [List.dropLast_cons_of_ne_nil (by simp)]
      rcases hdl : (w2 :: ws2).dropLast with _ | ⟨d, ds⟩
      · simp [joinSpace]
      · rw [hdl] at ih
        simp only [joinSpace]
        simp only [List.length_append, List.length_cons]
        omega

/-- Length bound of `truncate_content`, shared worker lemma. -/
theorem truncate_content_length_le (s : String) (N : Nat) :
    (truncate_content s N).length ≤ N + 3 := by
  unfold truncate_content
  split
  · next h =>
    rcases h with h | h
    · rw [h]
      simp [String.length]
    · omega
  · next h =>
    show (pyStrip _ ++ ['.', '.', '.']).length ≤ N + 3
    rw [List.length_append]
    have hbound : ∀ tr1 : List Char, tr1.length ≤ N → (pyStrip tr1).length + 3 ≤ N + 3 := by
      intro tr1 h1
      have := pyStrip_length_le tr1
      omega
    apply hbound
    split
    · dsimp only
      split
      · next =>
        calc (joinSpace (pySplitWS (s.data.take N)).dropLast).length
            ≤ (joinSpace (pySplitWS (s.data.take N))).length := joinSpace_dropLast_length _
          _ ≤ 0 + (s.data.take N).length := joinSpace_pySplitWSAux_length _ []
          _ ≤ N := by simp
      · next =>
        simp [List.length_take_le]
    · next htr =>
      rcases sectionLoop_length N (splitPara s.data) [] with h2 | h2
      · calc (sectionLoop N (splitPara s.data) []).length
            ≤ ([] : List Char).length := h2
          _ ≤ N := by simp
      · omega

/-- Claim C5: for every string and every budget, the result of
`truncate_content` has length at most the budget plus the three-character
ellipsis marker. -/
theorem c5_truncate_content_length_bound (s : String) (N : Nat) :
    (truncate_content s N).length ≤ N + 3 :=
  truncate_content_length_le s N

/-- Claim C6 counterexample: `truncate_content` is not idempotent; re-applying
it with the same budget to the truncation of `" abcdefghijXYZ"` at budget 10
changes the string (the ellipsis of the first pass is re-split and gains an
extra dot). -/
theorem c6_truncate_not_idempotent :
    truncate_content (truncate_content " abcdefghijXYZ" 10) 10 ≠
      truncate_content " abcdefghijXYZ" 10 := by
  decide

/-- Claim C6 amended: `truncate_content` is idempotent whenever its result fits
the budget, i.e. whenever the first truncation returns a string of length at
most the budget (in particular whenever the input needed no truncation);
re-application then returns it unchanged. -/
theorem c6_truncate_idempotent_of_fits (s : String) (N : Nat)
    (h : (truncate_content s N).length ≤ N) :
    truncate_content (truncate_content s N) N = truncate_content s N := by
  set r := truncate_content s N with hr
  unfold truncate_content
  rw [if_pos (Or.inr h)]

theorem c6_truncate_idempotent_of_fits_witness :
    ("hi" : String).length ≤ 5 ∧
      truncate_content (truncate_content "hi" 5) 5 = truncate_content "hi" 5 :=
  ⟨by decide, c6_truncate_idempotent_of_fits "hi" 5 (by decide)⟩

/-- Idempotence of `clean_text`, shared worker lemma. -/
theorem clean_text_idem (s : String) :
    clean_text (clean_text s) = clean_text s := by
  set r := clean_text s with hr
  by_cases h2 : r = ""
  · rw [h2]
    rfl
  · have hs : ¬(s = "") := by
      intro hs0
      apply h2
      rw [hr, hs0]
      rfl
    have hdata : r.data = cleanTextList s.data := by
      rw [hr]
      unfold clean_text
      rw [if_neg hs]
    unfold clean_text
    rw [if_neg h2, hdata, cleanTextList_idem]
    rw [hr]
    unfold clean_text
    rw [if_neg hs]

/-- Claim C7: `clean_text` is idempotent: cleaning already-cleaned text
changes nothing. -/
theorem c7_clean_text_idempotent (s : String) :
    clean_text (clean_text s) = clean_text s :=
  clean_text_idem s

/-- Claim C8, evaluation at the failing input: on `"a\n\nb"`, whose paragraph
break the specification says must be preserved as a double newline, the first
whitespace-collapsing substitution of `clean_text` has already replaced the
break by a single space, so the function returns `"a b"`. -/
theorem c8_paragraph_break_lost :
    clean_text "a\n\nb" = "a b" ∧ clean_text "a\n\nb" ≠ "a\n\nb" := by
  decide

/-- Claim C10: the output of `clean_text` never contains a newline character
(the first substitution folds every whitespace run, newlines included, into a
single space), so splitting cleaned text on a double newline — the first stage
of `truncate_content` — always yields the whole text as the single section. -/
theorem c10_clean_text_no_newline (s : String) :
    '\n' ∉ (clean_text s).data ∧
      splitPara (clean_text s).data = [(clean_text s).data] := by
  have hnl : '\n' ∉ (clean_text s).data := by
    unfold clean_text
    by_cases h : s = ""
    · rw [if_pos h]
      intro hmem
      simp at hmem
    · rw [if_neg h]
      exact wsOnly_not_nl (cleanTextList_cleanedOK s.data).2.1
  exact ⟨hnl, splitPara_no_nl hnl⟩

/-! ### Word tokenization and filename similarity (drive_utils.py) -/

/-- Python `str.endswith` on character lists. -/
def listEndsWith (l suf : List Char) : Bool :=
  decide (suf.length ≤ l.length) && decide (l.drop (l.length - suf.length) = suf)

/-- Maximal `\w+` runs, as used by `re.findall(r'\w+', s)`. -/
def wordRunsAux (acc : List Char) : List Char → List (List Char)
  | [] => if acc.isEmpty then [] else [acc.reverse]
  | c :: rest =>
    if pyIsWordChar c then wordRunsAux (c :: acc) rest
    else if acc.isEmpty then wordRunsAux [] rest
    else acc.reverse :: wordRunsAux [] rest

/-- `re.findall(r'\w+', s)` on the character list. -/
def wordRuns (l : List Char) : List (List Char) :=
  wordRunsAux [] l

/-- `re.findall(r'\w+', s)` returning strings. -/
def findallWords (s : String) : List String :=
  (wordRuns s.data).map (fun l => ⟨l⟩)

/-- Python `str.lower()` (ASCII fragment). -/
def pyLower (s : String) : String :=
  ⟨s.data.map Char.toLower⟩

/-- Python `str.strip()` at the string level. -/
def stripStr (s : String) : String :=
  ⟨pyStrip s.data⟩

/-- Deduplicate keeping the first occurrence of each element, mirroring the
iteration order of a Python `set`-sized computation (only lengths matter). -/
def firstDedupAux {α : Type} [DecidableEq α] (seen : List α) : List α → List α
  | [] => []
  | w :: rest =>
    if seen.contains w then firstDedupAux seen rest
    else w :: firstDedupAux (w :: seen) rest

/-- Deduplicate keeping first occurrences. -/
def firstDedup {α : Type} [DecidableEq α] (l : List α) : List α :=
  firstDedupAux [] l

/-- `GoogleDriveUtils._calculate_filename_similarity`
(src/utils/drive_utils.py lines 491-503): Jaccard similarity of the `\w+` word
sets of the two lower-cased filenames; the Python float division is modeled as
the exact rational `mkRat`. -/
def calculate_filename_similarity (filename1 filename2 : String) : ℚ :=
  let words1 := firstDedup (findallWords (pyLower filename1))
  let words2 := firstDedup (findallWords (pyLower filename2))
  if words1.isEmpty || words2.isEmpty then mkRat 0 1
  else
    let inter := words1.filter (fun w => words2.contains w)
    let union := firstDedup (words1 ++ words2)
    if union.isEmpty then mkRat 0 1 else mkRat inter.length union.length

/-- The stop-word set of `FileProcessor` (file_processing.py lines 19-32). -/
def stop_words : List String :=
  ["a", "an", "and", "are", "as", "at", "be", "by", "for", "from",
   "has", "he", "in", "is", "it", "its", "of", "on", "that", "the",
   "to", "was", "will", "with", "they", "this", "these", "their",
   "there", "than", "them", "his", "her", "she", "or", "but", "if",
   "we", "you", "your", "i", "my", "me", "our", "us", "up", "out",
   "down", "can", "could", "would", "should", "have", "had", "do",
   "does", "did", "shall", "may", "might",
   "must", "been", "being", "am", "were",
   "all", "any", "both", "each", "few", "more", "most", "other",
   "some", "such", "no", "nor", "not", "only", "own", "same", "so",
   "also", "just", "now", "very", "too", "then", "here", "how", "where",
   "please", "content", "file", "document", "summarize", "summary"]

/-- The professional-document vocabulary of `extract_keywords`
(file_processing.py lines 94-101). -/
def professional_keywords : List String :=
  ["experience", "skill", "education", "project", "work",
   "university", "degree", "certificate", "training", "language",
   "software", "programming", "management", "analysis", "research",
   "development", "design", "engineering", "marketing", "sales",
   "cv", "resume", "harmas", "menna", "pdf", "qualification",
   "internship", "job", "career", "professional", "technical"]

/-- Stable insertion (descending by key) used to model Python's stable sort
with `reverse=True`: among equal keys the earlier element stays first. -/
def insertCountDesc (cnt : String → Nat) (w : String) : List String → List String
  | [] => [w]
  | x :: xs => if cnt x ≤ cnt w then w :: x :: xs else x :: insertCountDesc cnt w xs

/-- Stable descending sort by an integer key (Python `sorted(..., reverse=True)`). -/
def sortCountDesc (cnt : String → Nat) (l : List String) : List String :=
  l.foldr (insertCountDesc cnt) []

/-- Word shape accepted by `re.findall(r'\b([A-Z][a-z]+)\b', text)`: a maximal
word run consisting of one upper-case letter followed by at least one
lower-case letter. -/
def isNameShape : List Char → Bool
  | [] => false
  | c :: rest => c.isUpper && !rest.isEmpty && rest.all Char.isLower

/-- A maximal word run matching `\b[a-zA-Z]{2,}\b`: at least two characters,
all ASCII letters. -/
def isAlphaToken (r : List Char) : Bool :=
  decide (2 ≤ r.length) && r.all Char.isAlpha

/-- `FileProcessor.extract_keywords` (file_processing.py lines 66-119):
frequency-ranked keywords with stop-word removal and a re-ranking pass that
promotes professional vocabulary, name-like words and long words. -/
def extract_keywords (text : String) (maxKeywords : Nat := 10) : List String :=
  if text = "" then []
  else
    let words := ((wordRuns (pyLower text).data).filter isAlphaToken).map
      (fun l => (⟨l⟩ : String))
    let filtered_words := words.filter
      (fun w => !(stop_words.contains w) && decide (2 < w.length))
    let top_words :=
      (sortCountDesc (fun w => filtered_words.count w) (firstDedup filtered_words)).take
        (maxKeywords * 2)
    let potential_names := (((wordRuns text.data).filter isNameShape).map
      (fun l => pyLower ⟨l⟩)).filter (fun n => decide (2 < n.length))
    let priority_words := top_words.filter (fun w =>
      professional_keywords.contains w || potential_names.contains w ||
      decide (6 < w.length) ||
      listEndsWith w.data ['c', 'v'] || ['c', 'v'].isPrefixOf w.data)
    let regular_words := top_words.filter (fun w => !(
      professional_keywords.contains w || potential_names.contains w ||
      decide (6 < w.length) ||
      listEndsWith w.data ['c', 'v'] || ['c', 'v'].isPrefixOf w.data))
    (priority_words ++ regular_words).take maxKeywords

/-! ### Filename-pattern extraction (get_relevant_context, utils variant)

The six regex patterns of `file_patterns` (src/utils/drive_utils.py lines
371-378) are matched with `re.findall(..., re.IGNORECASE)` and the first
group of the first match of the first pattern that matches wins.  Each pattern
is modeled by a left-to-right scanner with the same leftmost-match semantics;
greedy character-class repetitions never need backtracking here because the
character class of each pre-extension run cannot contain the following
delimiter (`.` or a quote). -/

/-- Contiguous-substring test: does `sub` occur inside `l`? -/
def listContainsSub (sub : List Char) : List Char → Bool
  | [] => sub.isEmpty
  | c :: rest => sub.isPrefixOf (c :: rest) || listContainsSub sub rest

/-- The character class `[\w\s\-\.]` of the quoted-filename patterns. -/
def isFnameChar (c : Char) : Bool :=
  pyIsWordChar c || pyIsSpace c || c = '-' || c = '.'

/-- The character class `[\w\s\-]` of the bare-filename patterns. -/
def isBareChar (c : Char) : Bool :=
  pyIsWordChar c || pyIsSpace c || c = '-'

/-- A quote character, `['\"]`. -/
def isQuote (c : Char) : Bool :=
  c = '\'' || c = '"'

/-- The extension alternation `(?:pdf|docx?|txt|csv)` in its backtracking
order: `docx` is tried before `doc` because `x?` is greedy. -/
def extAlternatives : List (List Char) :=
  [['p', 'd', 'f'], ['d', 'o', 'c', 'x'], ['d', 'o', 'c'], ['t', 'x', 't'], ['c', 's', 'v']]

/-- Case-insensitive prefix test. -/
def lowerIsPrefix (pat l : List Char) : Bool :=
  (l.take pat.length).map Char.toLower = pat

/-- Wordness of the character preceding the scan position (start of string
counts as a non-word position). -/
def prevIsWord : Option Char → Bool
  | none => false
  | some c => pyIsWordChar c

/-- A `\b` word boundary between the previous character and the current one. -/
def boundaryAt (prev : Option Char) (c : Char) : Bool :=
  prevIsWord prev != pyIsWordChar c

/-- Try to match `(?:pdf|docx?|txt|csv)` case-insensitively at the start of
`l`, requiring a `\b` right after the extension (next character absent or
non-word); returns the matched length. -/
def matchExtWithBoundary (l : List Char) : Option Nat :=
  (extAlternatives.filter (fun e =>
    lowerIsPrefix e l &&
      (match l.drop e.length with
       | [] => true
       | d :: _ => !pyIsWordChar d))).head?.map List.length

/-- Whether `run` decomposes as `prefix ++ '.' ++ ext` with a nonempty prefix
and a recognized extension (case-insensitive); used when the extension must
reach the end of the class run because the next character is a delimiter. -/
def endsWithDotExt (run : List Char) : Bool :=
  extAlternatives.any (fun e =>
    decide (e.length + 2 ≤ run.length) &&
      listEndsWith (run.map Char.toLower) ('.' :: e))

/-- Pattern 1, `[\'"]([\w\s\-\.]+\.(?:pdf|docx?|txt|csv))[\'"]`: a quoted
filename whose class run ends in a dot-extension, with a closing quote. -/
def pattern1Scan : List Char → Option (List Char)
  | [] => none
  | c :: rest =>
    if isQuote c then
      let run := rest.takeWhile isFnameChar
      if !run.isEmpty && endsWithDotExt run &&
          (match rest.drop run.length with
           | q :: _ => isQuote q
           | [] => false) then
        some run
      else pattern1Scan rest
    else pattern1Scan rest

/-- Patterns 2 and 3, `\bKW\s+[\'"]([\w\s\-\.]+)[\'"]` for a literal keyword
`KW` (`file` or `document`): the keyword at a word boundary, whitespace, then
any quoted class run. -/
def kwQuotedScan (kw : List Char) : Option Char → List Char → Option (List Char)
  | _, [] => none
  | prev, c :: rest =>
    (if !prevIsWord prev && lowerIsPrefix kw (c :: rest) then
      let afterKw := (c :: rest).drop kw.length
      let wsRun := afterKw.takeWhile pyIsSpace
      if wsRun.isEmpty then none
      else
        match afterKw.drop wsRun.length with
        | q :: rest2 =>
          if isQuote q then
            let run := rest2.takeWhile isFnameChar
            if !run.isEmpty &&
                (match rest2.drop run.length with
                 | q2 :: _ => isQuote q2
                 | [] => false) then
              some run
            else none
          else none
        | [] => none
    else none) <|> kwQuotedScan kw (some c) rest

/-- Pattern 4, `\b([\w\s\-]+\.(?:pdf|docx?|txt|csv))\b`: a bare class run
followed by a dot-extension at word boundaries.  The class cannot contain
`'.'`, so the run before the dot is exactly the maximal class run from the
match start. -/
def pattern4Scan : Option Char → List Char → Option (List Char)
  | _, [] => none
  | prev, c :: rest =>
    (if boundaryAt prev c && isBareChar c then
      let run := (c :: rest).takeWhile isBareChar
      match (c :: rest).drop run.length with
      | '.' :: after2 =>
        match matchExtWithBoundary after2 with
        | some elen => some (run ++ '.' :: after2.take elen)
        | none => none
      | _ => none
    else none) <|> pattern4Scan (some c) rest

/-- Patterns 5 and 6, `\b([\w\s\-]*WORD[\w\s\-]*\.(?:EXTS))\b`: a bare class
run containing the literal `WORD` (case-insensitive), followed by a
dot-extension from `exts` at word boundaries. -/
def containsWordScan (word : List Char) (exts : List (List Char)) :
    Option Char → List Char → Option (List Char)
  | _, [] => none
  | prev, c :: rest =>
    (if boundaryAt prev c && isBareChar c then
      let run := (c :: rest).takeWhile isBareChar
      if !(listContainsSub word (run.map Char.toLower)) then none
      else
        match (c :: rest).drop run.length with
        | '.' :: after2 =>
          match (exts.filter (fun e =>
            lowerIsPrefix e after2 &&
              (match after2.drop e.length with
               | [] => true
               | d :: _ => !pyIsWordChar d))).head?.map List.length with
          | some elen => some (run ++ '.' :: after2.take elen)
          | none => none
        | _ => none
    else none) <|> containsWordScan word exts (some c) rest

/-- The `potential_filename` extraction of `get_relevant_context`
(src/utils/drive_utils.py lines 366-385): the six patterns are tried in order
and the first match, stripped, wins. -/
def extractPotentialFilename (userQuery : String) : Option String :=
  let q := userQuery.data
  ((pattern1Scan q <|>
    kwQuotedScan ['f', 'i', 'l', 'e'] none q <|>
    kwQuotedScan ['d', 'o', 'c', 'u', 'm', 'e', 'n', 't'] none q <|>
    pattern4Scan none q <|>
    containsWordScan ['c', 'v'] [['p', 'd', 'f']] none q <|>
    containsWordScan ['r', 'e', 's', 'u', 'm', 'e']
      [['p', 'd', 'f'], ['d', 'o', 'c', 'x'], ['d', 'o', 'c']] none q).map
    (fun g => stripStr ⟨g⟩))

/-! ### FileSearcher (`GoogleDriveUtils.search_files`, utils variant)

The remote listing call is a parameter of the model.  The source composes a
boolean query-expression string out of name-contains terms, a MIME-type
disjunction and `trashed=false`; the embedding hands the provider that same
query in structured form (`DriveQuery`), since string composition followed by
provider-side parsing is external-interface plumbing. -/

/-- A file metadata record as returned by the provider's listing call; the
optional fields may be absent from the response. -/
structure RawFile where
  id : String
  name : String
  mimeType : String
  size : Option String
  modifiedTime : Option String
  createdTime : Option String
  webViewLink : Option String
deriving DecidableEq

/-- An enriched file record (search_files lines 115-127). -/
structure DriveFile where
  id : String
  name : String
  mimeType : String
  typeName : String
  size : String
  modified : String
  created : String
  url : String
deriving DecidableEq

/-- The supported-format registry `supported_types` (drive_utils.py
lines 36-43). -/
def supported_types : List (String × String) :=
  [("application/vnd.google-apps.document", "Google Docs"),
   ("text/plain", "Text File"),
   ("text/csv", "CSV File"),
   ("application/pdf", "PDF File"),
   ("text/markdown", "Markdown File"),
   ("application/vnd.openxmlformats-officedocument.wordprocessingml.document",
    "Word Document")]

/-- The structured content of the composed Drive query expression:
`(name contains t1 or ...) and (mimeType=m1 or ...) and trashed=false`,
with an empty term list when no name predicate was added. -/
structure DriveQuery where
  nameTerms : List String
  mimeTypes : List String
deriving DecidableEq

/-- Errors of the remote listing call: the dedicated `HttpError` handler and
the catch-all handler of search_files (lines 131-136). -/
inductive DriveError where
  | http
  | other
deriving DecidableEq

/-- The provider's file-listing capability. -/
def ListService : Type :=
  DriveQuery → Nat → Except DriveError (List RawFile)

/-- `re.sub(r'\.(pdf|docx?|txt|csv)$', '', query, flags=re.IGNORECASE)`:
strip one trailing recognized extension. -/
def stripTrailingExtension (q : String) : String :=
  let low := (pyLower q).data
  if listEndsWith low ['.', 'd', 'o', 'c', 'x'] then ⟨q.data.take (q.data.length - 5)⟩
  else if listEndsWith low ['.', 'p', 'd', 'f'] || listEndsWith low ['.', 'd', 'o', 'c'] ||
      listEndsWith low ['.', 't', 'x', 't'] || listEndsWith low ['.', 'c', 's', 'v'] then
    ⟨q.data.take (q.data.length - 4)⟩
  else q

/-- `re.sub(r'[^\w\s-]', ' ', clean_query)`. -/
def subNonWordToSpace (s : String) : String :=
  ⟨s.data.map (fun c => if pyIsWordChar c || pyIsSpace c || c = '-' then c else ' ')⟩

/-- The query cleaning of search_files (lines 60-66): strip a trailing
extension, replace remaining non-word characters by spaces, strip, split into
whitespace-separated terms and keep those longer than two characters. -/
def build_search_terms (q : String) : List String :=
  let cq := stripStr (subNonWordToSpace (stripTrailingExtension q))
  ((pySplitWS cq.data).map (fun l => (⟨l⟩ : String))).filter (fun t => 2 < t.length)

/-- The composed listing query of search_files (lines 56-95): name terms from
the cleaned query (none when no query was given), the supported-format
disjunction (all supported types when unspecified or empty), `trashed=false`
implicit. -/
def build_drive_query (query : Option String) (fileTypes : Option (List String)) :
    DriveQuery :=
  let terms := match query with
    | some q => build_search_terms q
    | none => []
  let mimes := match fileTypes with
    | some ft => if ft.isEmpty then supported_types.map Prod.fst else ft
    | none => supported_types.map Prod.fst
  ⟨terms, mimes⟩

/-- The enrichment of a listing result (search_files lines 115-127). -/
def enrichFile (f : RawFile) : DriveFile :=
  ⟨f.id, f.name, f.mimeType,
   ((supported_types.lookup f.mimeType).getD "Unknown"),
   f.size.getD "Unknown", f.modifiedTime.getD "Unknown",
   f.createdTime.getD "Unknown", f.webViewLink.getD ""⟩

/-- `GoogleDriveUtils.search_files` (src/utils/drive_utils.py lines 47-136):
compose the query, issue one listing call, enrich the results; on any
provider error return the empty list. -/
def search_files (service : ListService) (query : Option String)
    (fileTypes : Option (List String)) (limit : Nat) : List DriveFile :=
  match service (build_drive_query query fileTypes) limit with
  | Except.error _ => []
  | Except.ok files => files.map enrichFile

/-- Claim C9: whenever the remote file-listing call fails (transport or
provider error), `search_files` returns the empty sequence instead of
propagating the error. -/
theorem c9_search_files_empty_on_error (service : ListService)
    (query : Option String) (fileTypes : Option (List String)) (limit : Nat)
    (e : DriveError)
    (h : service (build_drive_query query fileTypes) limit = Except.error e) :
    search_files service query fileTypes limit = [] := by
  unfold search_files
  rw [h]

theorem c9_search_files_empty_on_error_witness :
    search_files (fun _ _ => Except.error DriveError.http) (some "report") none 20 = [] :=
  c9_search_files_empty_on_error (fun _ _ => Except.error DriveError.http)
    (some "report") none 20 DriveError.http rfl

/-! ### ContentExtractor (`GoogleDriveUtils.get_file_content` and helpers)

Downloads and third-party parsers are parameters: `MediaStore` yields the
downloaded, decoded payload for a file id (`none` on a failed download or
decode), and `ThirdPartyLibs` holds the library functions (pandas, PyPDF2,
python-docx, markdown) of which the source only consumes the rendered-text
contract. -/

/-- A pandas data frame, abstracted to what `_extract_csv_content` reads from
it directly: the column names and the row count. -/
structure CsvFrame where
  columns : List String
  nRows : Nat
deriving DecidableEq

/-- The third-party library surface used by the extractors. -/
structure ThirdPartyLibs where
  mdToHtml : String → String
  readCsv : String → Option CsvFrame
  csvHead : CsvFrame → String
  csvDescribe : CsvFrame → String
  csvNumericCols : CsvFrame → List String
  pdfPages : String → Option (List (Option String))
  docxParagraphs : String → Option (List String)

/-- The provider's media downloads, per file id: `rawText` is the chunked
download decoded as UTF-8, `exportText` the plain-text export of a Google
document.  `none` models a failed download. -/
structure MediaStore where
  rawText : String → Option String
  exportText : String → Option String

/-- `_extract_google_doc_content` (drive_utils.py lines 229-249): export as
plain text and clean. -/
def extract_google_doc_content (store : MediaStore) (fileId : String) : Option String :=
  (store.exportText fileId).map clean_text

/-- `_extract_text_file_content` (lines 251-268): download, decode and clean. -/
def extract_text_file_content (store : MediaStore) (fileId : String) : Option String :=
  (store.rawText fileId).map clean_text

/-- Python `", ".join(columns)`. -/
def joinCommaSpace : List String → String
  | [] => ""
  | [x] => x
  | x :: xs => x ++ ", " ++ joinCommaSpace xs

/-- The CSV summary string built by `_extract_csv_content`
(lines 285-296): header lines, then sample data and numeric statistics only
for non-empty frames.  The pandas renderings are the opaque `csvHead` and
`csvDescribe` strings. -/
def csvSummary (libs : ThirdPartyLibs) (df : CsvFrame) : String :=
  let base := "CSV Data Summary:\n" ++
    "Rows: " ++ toString df.nRows ++ ", Columns: " ++ toString df.columns.length ++ "\n" ++
    "Column Names: " ++ joinCommaSpace df.columns ++ "\n\n"
  if 0 < df.nRows then
    let withSample := base ++ "Sample Data (first 5 rows):\n" ++ libs.csvHead df
    if 0 < (libs.csvNumericCols df).length then
      withSample ++ "\n\nNumeric Column Statistics:\n" ++ libs.csvDescribe df
    else withSample
  else base

/-- `_extract_csv_content` (lines 270-302): download, parse with pandas and
return the summary string directly — this is the one extractor that does not
pass its result through `clean_text`. -/
def extract_csv_content (store : MediaStore) (libs : ThirdPartyLibs)
    (fileId : String) : Option String :=
  (store.rawText fileId).bind fun bytes =>
    (libs.readCsv bytes).map fun df => csvSummary libs df

/-- The page-assembly of `_extract_pdf_content` (lines 198-211): pages whose
extraction failed (`none`) or whose text strips to empty are skipped; the
others are framed with a `--- Page N ---` marker, numbering from one. -/
def pdfAssemble (n : Nat) : List (Option String) → String
  | [] => ""
  | p :: rest =>
    (match p with
     | some t =>
       if (pyStrip t.data).isEmpty then "" else "\n--- Page " ++ toString n ++ " ---\n" ++ t ++ "\n"
     | none => "") ++ pdfAssemble (n + 1) rest

/-- `_extract_pdf_content` (lines 173-227): download, read pages, assemble the
page-framed text, fail when no page yields text, otherwise clean. -/
def extract_pdf_content (store : MediaStore) (libs : ThirdPartyLibs)
    (fileId : String) : Option String :=
  (store.rawText fileId).bind fun bytes =>
    (libs.pdfPages bytes).bind fun pages =>
      let text := pdfAssemble 1 pages
      if (pyStrip text.data).isEmpty then none else some (clean_text text)

/-- Helper for `re.sub('<[^<]+?>', '', html)`: first `'>'` in the list before
any `'<'`, returning the remainder after it. -/
def searchGt : List Char → Option (List Char)
  | [] => none
  | c :: rest =>
    if c = '>' then some rest
    else if c = '<' then none
    else searchGt rest

/-- Fuel-based scanner for `re.sub('<[^<]+?>', '', html)`: a `'<'`, at least
one non-`'<'` character, then lazily the first `'>'`, is removed. -/
def stripTagsFuel : Nat → List Char → List Char
  | 0, l => l
  | _ + 1, [] => []
  | fuel + 1, c :: rest =>
    if c = '<' then
      match rest with
      | [] => ['<']
      | c1 :: rest2 =>
        if c1 = '<' then '<' :: stripTagsFuel fuel rest
        else
          match searchGt rest2 with
          | some rem => stripTagsFuel fuel rem
          | none => '<' :: stripTagsFuel fuel rest
    else c :: stripTagsFuel fuel rest

/-- `re.sub('<[^<]+?>', '', html)` (line 321). -/
def stripHtmlTags (s : String) : String :=
  ⟨stripTagsFuel s.data.length s.data⟩

/-- `_extract_markdown_content` (lines 304-327): download, render to HTML with
the markdown library, strip tags and clean. -/
def extract_markdown_content (store : MediaStore) (libs : ThirdPartyLibs)
    (fileId : String) : Option String :=
  (store.rawText fileId).map fun content =>
    clean_text (stripHtmlTags (libs.mdToHtml content))

/-- Python `"".join(p + "\n" for p in paragraphs)` as accumulated by the Word
extractor's loop. -/
def joinParagraphsNl : List String → String
  | [] => ""
  | p :: rest => p ++ "\n" ++ joinParagraphsNl rest

/-- `_extract_word_content` (lines 329-352): download, read the paragraph
sequence, join with newlines and clean. -/
def extract_word_content (store : MediaStore) (libs : ThirdPartyLibs)
    (fileId : String) : Option String :=
  (store.rawText fileId).bind fun bytes =>
    (libs.docxParagraphs bytes).map fun ps =>
      clean_text (joinParagraphsNl ps)

/-- The `if/elif` dispatch of `get_file_content` (drive_utils.py
lines 146-160) selecting the per-format extraction strategy; `none` for any
MIME type outside the registry. -/
def dispatch_file_content (store : MediaStore) (libs : ThirdPartyLibs)
    (fileId mimeType : String) : Option String :=
  if mimeType = "application/vnd.google-apps.document" then
    extract_google_doc_content store fileId
  else if mimeType = "text/plain" then
    extract_text_file_content store fileId
  else if mimeType = "text/csv" then
    extract_csv_content store libs fileId
  else if mimeType = "application/pdf" then
    extract_pdf_content store libs fileId
  else if mimeType = "text/markdown" then
    extract_markdown_content store libs fileId
  else if mimeType =
      "application/vnd.openxmlformats-officedocument.wordprocessingml.document" then
    extract_word_content store libs fileId
  else none

/-- `GoogleDriveUtils.get_file_content` (drive_utils.py lines 138-171):
dispatch on the declared MIME type, return `none` for unsupported formats and
for empty or failed extractions (the Python `if content:` truthiness check). -/
def get_file_content (store : MediaStore) (libs : ThirdPartyLibs)
    (fileId mimeType _fileName : String) : Option String :=
  match dispatch_file_content store libs fileId mimeType with
  | some c => if c = "" then none else some c
  | none => none

/-- A store whose every download yields the CSV payload of the C4 scenario. -/
def c4Store : MediaStore :=
  ⟨fun _ => some "Name,Score\n", fun _ => none⟩

/-- Libraries for the C4 scenario: pandas parses the payload into a frame
with columns `Name`, `Score` and zero rows. -/
def c4Libs : ThirdPartyLibs :=
  ⟨id, fun _ => some ⟨["Name", "Score"], 0⟩, fun _ => "", fun _ => "",
   fun _ => [], fun _ => none, fun _ => none⟩

set_option maxRecDepth 40000 in
/-- Claim C4 counterexample: the CSV extractor returns its summary string
directly, not through the Normalizer — the returned summary contains newline
characters, so it is not a fixed point of `clean_text`. -/
theorem c4_csv_extraction_not_normalized :
    get_file_content c4Store c4Libs "f1" "text/csv" "data.csv" =
      some "CSV Data Summary:\nRows: 0, Columns: 2\nColumn Names: Name, Score\n\n" ∧
    clean_text "CSV Data Summary:\nRows: 0, Columns: 2\nColumn Names: Name, Score\n\n" ≠
      "CSV Data Summary:\nRows: 0, Columns: 2\nColumn Names: Name, Score\n\n" := by
  constructor
  · decide
  · decide

/-- Claim C4 amended: for every supported declared format except CSV, every
successful extraction returned by `get_file_content` is `clean_text` applied
to the raw per-format text, hence a fixed point of `clean_text`; the CSV path
alone returns its pandas summary without normalization. -/
theorem c4_non_csv_extractions_normalized (store : MediaStore)
    (libs : ThirdPartyLibs) (fileId mimeType fileName s : String)
    (h : get_file_content store libs fileId mimeType fileName = some s)
    (hcsv : mimeType ≠ "text/csv") :
    clean_text s = s := by
  unfold get_file_content at h
  rcases hd : dispatch_file_content store libs fileId mimeType with _ | c
  · rw [hd] at h
    change (none : Option String) = some s at h
    cases h
  · rw [hd] at h
    change (if c = "" then none else some c) = some s at h
    by_cases hc : c = ""
    · rw [if_pos hc] at h
      cases h
    · rw [if_neg hc] at h
      have hcs : c = s := by
        injection h
      subst hcs
      clear h hc
      unfold dispatch_file_content at hd
      by_cases h1 : mimeType = "application/vnd.google-apps.document"
      · rw [if_pos h1] at hd
        unfold extract_google_doc_content at hd
        rcases he : store.exportText fileId with _ | raw
        · rw [he] at hd; cases hd
        · rw [he] at hd
          have : clean_text raw = c := by injection hd
          rw [← this]
          exact clean_text_idem raw
      · rw [if_neg h1] at hd
        by_cases h2 : mimeType = "text/plain"
        · rw [if_pos h2] at hd
          unfold extract_text_file_content at hd
          rcases he : store.rawText fileId with _ | raw
          · rw [he] at hd; cases hd
          · rw [he] at hd
            have : clean_text raw = c := by injection hd
            rw [← this]
            exact clean_text_idem raw
        · rw [if_neg h2, if_neg hcsv] at hd
          by_cases h4 : mimeType = "application/pdf"
          · rw [if_pos h4] at hd
            unfold extract_pdf_content at hd
            rcases he : store.rawText fileId with _ | raw
            · rw [he] at hd; cases hd
            · rw [he] at hd
              simp only [Option.some_bind] at hd
              rcases hp : libs.pdfPages raw with _ | pages
              · rw [hp] at hd; cases hd
              · rw [hp] at hd
                simp only [Option.some_bind] at hd
                by_cases hstrip : (pyStrip (pdfAssemble 1 pages).data).isEmpty
                · rw [if_pos hstrip] at hd; cases hd
                · rw [if_neg hstrip] at hd
                  have : clean_text (pdfAssemble 1 pages) = c := by injection hd
                  rw [← this]
                  exact clean_text_idem _
          · rw [if_neg h4] at hd
            by_cases h5 : mimeType = "text/markdown"
            · rw [if_pos h5] at hd
              unfold extract_markdown_content at hd
              rcases he : store.rawText fileId with _ | raw
              · rw [he] at hd; cases hd
              · rw [he] at hd
                have : clean_text (stripHtmlTags (libs.mdToHtml raw)) = c := by injection hd
                rw [← this]
                exact clean_text_idem _
            · rw [if_neg h5] at hd
              by_cases h6 : mimeType =
                  "application/vnd.openxmlformats-officedocument.wordprocessingml.document"
              · rw [if_pos h6] at hd
                unfold extract_word_content at hd
                rcases he : store.rawText fileId with _ | raw
                · rw [he] at hd; cases hd
                · rw [he] at hd
                  simp only [Option.some_bind] at hd
                  rcases hw : libs.docxParagraphs raw with _ | ps
                  · rw [hw] at hd; cases hd
                  · rw [hw] at hd
                    have : clean_text (joinParagraphsNl ps) = c := by injection hd
                    rw [← this]
                    exact clean_text_idem _
              · rw [if_neg h6] at hd
                cases hd

theorem c4_non_csv_extractions_normalized_witness :
    clean_text "hello" = "hello" :=
  c4_non_csv_extractions_normalized
    ⟨fun _ => some "hello", fun _ => none⟩
    ⟨id, fun _ => none, fun _ => "", fun _ => "", fun _ => [], fun _ => none, fun _ => none⟩
    "f" "text/plain" "a.txt" "hello" (by decide) (by decide)

/-! ### ContextAssembler (`GoogleDriveUtils.get_relevant_context`, utils variant) -/

/-- A `source_files` entry (drive_utils.py lines 452-459). -/
structure SourceRef where
  id : String
  name : String
  type : String
  url : String
  modified : String
  created : String
deriving DecidableEq

/-- The framed per-file section appended to `context_parts`
(lines 447-450). -/
def sectionString (f : DriveFile) (truncated : String) : String :=
  "--- Content from file: " ++ f.name ++ " (" ++ f.typeName ++ ") ---\n" ++
    truncated ++ "\n"

/-- The source manifest entry for a file. -/
def mkSourceRef (f : DriveFile) : SourceRef :=
  ⟨f.id, f.name, f.typeName, f.url, f.modified, f.created⟩

/-- `xs.insert(0, xs.pop())`: move the last element to the front. -/
def moveLastToFront {α : Type} (l : List α) : List α :=
  match l.getLast? with
  | none => l
  | some x => x :: l.dropLast

/-- Fuel-based Python `str.replace(pat, repl)`: leftmost, non-overlapping,
all occurrences.  `l.length` fuel always suffices. -/
def replaceAllFuel (pat repl : List Char) : Nat → List Char → List Char
  | 0, l => l
  | _ + 1, [] => []
  | fuel + 1, c :: rest =>
    if pat.isPrefixOf (c :: rest) && !pat.isEmpty then
      repl ++ replaceAllFuel pat repl fuel ((c :: rest).drop pat.length)
    else c :: replaceAllFuel pat repl fuel rest

/-- Python `s.replace(pat, repl)`. -/
def pyReplace (s pat repl : String) : String :=
  ⟨replaceAllFuel pat.data repl.data s.data.length s.data⟩

/-- `potential_filename.replace('.pdf', '').replace('.docx', '').replace('.txt', '')`
(lines 396 and 431). -/
def clean_filename_for_search (pf : String) : String :=
  pyReplace (pyReplace (pyReplace pf ".pdf" "") ".docx" "") ".txt" ""

/-- Python `" ".join(strings)`. -/
def joinStringsSpace : List String → String
  | [] => ""
  | [x] => x
  | x :: xs => x ++ " " ++ joinStringsSpace xs

/-- Python `"\n".join(strings)`. -/
def joinStringsNl : List String → String
  | [] => ""
  | [x] => x
  | x :: xs => x ++ "\n" ++ joinStringsNl xs

/-- Stable insertion for the descending relevance sort
(`relevant_files.sort(key=..., reverse=True)`, line 432): among equal keys the
earlier candidate stays first, as with Python's stable sort. -/
def insertSimDesc (key : DriveFile → ℚ) (x : DriveFile) : List DriveFile → List DriveFile
  | [] => [x]
  | y :: ys => if key y ≤ key x then x :: y :: ys else y :: insertSimDesc key x ys

/-- Python `list.sort(key=key, reverse=True)`: stable descending sort. -/
def sortSimDesc (key : DriveFile → ℚ) (l : List DriveFile) : List DriveFile :=
  l.foldr (insertSimDesc key) []

/-- The extraction loop of `get_relevant_context` (drive_utils.py
lines 434-478): extract each candidate in turn, accept only substantial
content (stripped length over 50), truncate to 1500, append the framed
section and the source entry; on a high-confidence filename match (Jaccard
similarity over 0.7) promote the just-added file to the front and stop;
stop after three successful extractions. -/
def extractionLoop (store : MediaStore) (libs : ThirdPartyLibs)
    (pf : Option String) :
    List DriveFile → List String → List SourceRef → Nat →
      List String × List SourceRef
  | [], parts, sources, _ => (parts, sources)
  | f :: rest, parts, sources, n =>
    match get_file_content store libs f.id f.mimeType f.name with
    | some c =>
      if 50 < (pyStrip c.data).length then
        let truncated := truncate_content c 1500
        let parts2 := parts ++ [sectionString f truncated]
        let sources2 := sources ++ [mkSourceRef f]
        let n2 := n + 1
        if (match pf with
            | some p =>
              decide (mkRat 7 10 < calculate_filename_similarity (pyLower f.name) (pyLower p))
            | none => false) then
          if 1 < parts2.length then (moveLastToFront parts2, moveLastToFront sources2)
          else (parts2, sources2)
        else if 3 ≤ n2 then (parts2, sources2)
        else extractionLoop store libs pf rest parts2 sources2 n2
      else if 3 ≤ n then (parts, sources)
      else extractionLoop store libs pf rest parts sources n
    | none =>
      if 3 ≤ n then (parts, sources)
      else extractionLoop store libs pf rest parts sources n

/-- `GoogleDriveUtils.get_relevant_context` (src/utils/drive_utils.py
lines 354-489): filename extraction, three-stage search fallback, similarity
ranking when a filename is known, then the extraction loop; the joined
sections and the source manifest are returned. -/
def get_relevant_context (service : ListService) (store : MediaStore)
    (libs : ThirdPartyLibs) (userQuery : String) (maxFiles : Nat := 10) :
    String × List SourceRef :=
  let potential_filename := extractPotentialFilename userQuery
  let keywords := extract_keywords userQuery 10
  let files1 :=
    match potential_filename with
    | some pf =>
      let cf := clean_filename_for_search pf
      let r1 := search_files service (some cf) none maxFiles
      if r1.isEmpty then
        let fwords := pySplitWS cf.data
        if 1 < fwords.length then
          search_files service (some ⟨joinSpace fwords⟩) none maxFiles
        else r1
      else r1
    | none => []
  let files2 :=
    if files1.isEmpty && !keywords.isEmpty then
      search_files service (some (joinStringsSpace (keywords.take 3))) none maxFiles
    else files1
  let files3 := if files2.isEmpty then search_files service none none maxFiles else files2
  if files3.isEmpty then ("", [])
  else
    let sorted :=
      match potential_filename with
      | some pf =>
        let clean_target := clean_filename_for_search (pyLower pf)
        sortSimDesc
          (fun f => calculate_filename_similarity (pyLower f.name) clean_target) files3
      | none => files3
    let r := extractionLoop store libs potential_filename sorted [] [] 0
    (joinStringsNl r.1, r.2)

/-- Substantial extraction test: the file's content extracts successfully and
its stripped length exceeds the 50-character minimum-substance gate. -/
def substantialB (store : MediaStore) (libs : ThirdPartyLibs) (f : DriveFile) : Bool :=
  match get_file_content store libs f.id f.mimeType f.name with
  | some c => decide (50 < (pyStrip c.data).length)
  | none => false

/-- A model of the provider side of the listing call (external interface,
spec section 6): a file matches when some name-contains term occurs in its
name (case-insensitively, with no terms meaning no name predicate), its MIME
type is in the requested disjunction, and the page size caps the result. -/
def driveListService (files : List RawFile) : ListService :=
  fun q limit =>
    Except.ok ((files.filter (fun f =>
      (q.nameTerms.isEmpty ||
        q.nameTerms.any (fun t =>
          listContainsSub (pyLower t).data (pyLower f.name).data)) &&
      q.mimeTypes.contains f.mimeType)).take limit)

/-- The Drive of the C1 scenario: `resume.pdf` and `cover_letter.docx`. -/
def c1Files : List RawFile :=
  [⟨"id-resume", "resume.pdf", "application/pdf", none, none, none, none⟩,
   ⟨"id-cover", "cover_letter.docx",
    "application/vnd.openxmlformats-officedocument.wordprocessingml.document",
    none, none, none, none⟩]

/-- Downloads of the C1 scenario. -/
def c1Store : MediaStore :=
  ⟨fun _ => some "rawbytes", fun _ => none⟩

/-- Libraries of the C1 scenario: the PDF has one page of sixty characters,
the Word document one paragraph of sixty characters. -/
def c1Libs : ThirdPartyLibs :=
  ⟨id, fun _ => none, fun _ => "", fun _ => "", fun _ => [],
   fun _ => some [some ⟨List.replicate 60 'a'⟩],
   fun _ => some [⟨List.replicate 60 'b'⟩]⟩

set_option maxRecDepth 200000 in
/-- Claim C1 counterexample: on the query `"Find my resume.pdf"` the
filename-extraction stage does not isolate `resume.pdf`: the bare-filename
pattern's character class `[\w\s\-]+` also consumes `Find my `, so the whole
phrase `Find my resume.pdf` is captured, and the Jaccard similarity of
`resume.pdf` to that extracted name is 1/2, not 1. -/
theorem c1_filename_extraction_counterexample :
    extractPotentialFilename "Find my resume.pdf" = some "Find my resume.pdf" ∧
    some "Find my resume.pdf" ≠ some "resume.pdf" ∧
    calculate_filename_similarity "resume.pdf" (pyLower "Find my resume.pdf") =
      mkRat 1 2 := by
  refine ⟨by decide, by decide, by decide⟩

set_option maxRecDepth 400000 in
/-- Claim C1 amended: on the query `"Find my resume.pdf"` against a Drive
holding `resume.pdf` and `cover_letter.docx`, the extraction stage captures
the whole phrase `Find my resume.pdf`; the search on its extension-stripped
form matches only `resume.pdf` (no search term occurs in
`cover_letter.docx`), ranking keeps `resume.pdf` first, its Jaccard
similarity to the extracted phrase is 1/2, which does not exceed the 0.7
high-confidence threshold, so no short-circuit fires — yet the returned
sources manifest still contains exactly one entry, for `resume.pdf`. -/
theorem c1_resume_scenario :
    extractPotentialFilename "Find my resume.pdf" = some "Find my resume.pdf" ∧
    (search_files (driveListService c1Files)
        (some (clean_filename_for_search "Find my resume.pdf")) none 10).map
      DriveFile.name = ["resume.pdf"] ∧
    ¬(mkRat 7 10 <
      calculate_filename_similarity (pyLower "resume.pdf")
        (pyLower "Find my resume.pdf")) ∧
    ((get_relevant_context (driveListService c1Files) c1Store c1Libs
        "Find my resume.pdf" 10).2.map SourceRef.name) = ["resume.pdf"] := by
  refine ⟨by decide, by decide, by decide, by decide⟩

/-- The Drive of the C2 scenario: four substantial plain-text files whose
names all contain `report`. -/
def c2Files : List RawFile :=
  [⟨"r0", "report", "text/plain", none, none, none, none⟩,
   ⟨"r1", "report one", "text/plain", none, none, none, none⟩,
   ⟨"r2", "report two", "text/plain", none, none, none, none⟩,
   ⟨"r3", "report three", "text/plain", none, none, none, none⟩]

/-- Downloads of the C2 scenario: every file is sixty characters long. -/
def c2Store : MediaStore :=
  ⟨fun _ => some ⟨List.replicate 60 'c'⟩, fun _ => none⟩

/-- Libraries of the C2 scenario (only plain-text extraction is exercised). -/
def c2Libs : ThirdPartyLibs :=
  ⟨id, fun _ => none, fun _ => "", fun _ => "", fun _ => [],
   fun _ => none, fun _ => none⟩

set_option maxRecDepth 400000 in
/-- Claim C2 counterexample: a query whose candidate list holds four files
that each extract to more than 50 characters for which the sources manifest
has one entry, not three: the query `file "report"` extracts the filename
`report`, the first candidate's similarity to it is 1, above the 0.7
threshold, so the high-confidence short-circuit stops the loop after a single
extraction. -/
theorem c2_exactly_three_counterexample :
    (search_files (driveListService c2Files) (some "report") none 10).length = 4 ∧
    (∀ f ∈ search_files (driveListService c2Files) (some "report") none 10,
      substantialB c2Store c2Libs f = true) ∧
    (get_relevant_context (driveListService c2Files) c2Store c2Libs
      "file \"report\"" 10).2.length = 1 := by
  refine ⟨by decide, by decide, by decide⟩

theorem moveLastToFront_length {α : Type} (l : List α) :
    (moveLastToFront l).length = l.length := by
  unfold moveLastToFront
  rcases hr : l.getLast? with _ | x
  · rfl
  · have hne : l ≠ [] := by
      intro h
      rw [h] at hr
      cases hr
    simp [List.length_dropLast]
    have : 0 < l.length := List.length_pos.mpr hne
    omega

theorem substantialB_elim {store : MediaStore} {libs : ThirdPartyLibs}
    {f : DriveFile} (h : substantialB store libs f = true) :
    ∃ c, get_file_content store libs f.id f.mimeType f.name = some c ∧
      50 < (pyStrip c.data).length := by
  unfold substantialB at h
  rcases hg : get_file_content store libs f.id f.mimeType f.name with _ | c
  · rw [hg] at h
    cases h
  · rw [hg] at h
    refine ⟨c, rfl, ?_⟩
    simpa using h

theorem extractionLoop_sources_le (store : MediaStore) (libs : ThirdPartyLibs)
    (pf : Option String) :
    ∀ (files : List DriveFile) (parts : List String) (sources : List SourceRef)
      (n : Nat), sources.length = n → n ≤ 2 →
      (extractionLoop store libs pf files parts sources n).2.length ≤ 3 := by
  intro files
  induction files with
  | nil =>
    intro parts sources n hlen hn
    unfold extractionLoop
    show sources.length ≤ 3
    omega
  | cons f rest ih =>
    intro parts sources n hlen hn
    unfold extractionLoop
    rcases hg : get_file_content store libs f.id f.mimeType f.name with _ | c
    · dsimp only
      by_cases h3 : 3 ≤ n
      · rw [if_pos h3]
        show sources.length ≤ 3
        omega
      · rw [if_neg h3]
        exact ih parts sources n hlen hn
    · dsimp only
      by_cases hsub : 50 < (pyStrip c.data).length
      · rw [if_pos hsub]
        have hlen2 : (sources ++ [mkSourceRef f]).length = n + 1 := by
          simp [hlen]
        split
        · split
          · show (moveLastToFront (sources ++ [mkSourceRef f])).length ≤ 3
            rw [moveLastToFront_length]
            omega
          · show (sources ++ [mkSourceRef f]).length ≤ 3
            omega
        · by_cases h3 : 3 ≤ n + 1
          · rw [if_pos h3]
            show (sources ++ [mkSourceRef f]).length ≤ 3
            omega
          · rw [if_neg h3]
            exact ih _ _ (n + 1) hlen2 (by omega)
      · rw [if_neg hsub]
        by_cases h3 : 3 ≤ n
        · rw [if_pos h3]
          show sources.length ≤ 3
          omega
        · rw [if_neg h3]
          exact ih parts sources n hlen hn

theorem extractionLoop_cons_success (store : MediaStore) (libs : ThirdPartyLibs)
    (f : DriveFile) (rest : List DriveFile) (parts : List String)
    (sources : List SourceRef) (n : Nat) (c : String)
    (hc : get_file_content store libs f.id f.mimeType f.name = some c)
    (hlen : 50 < (pyStrip c.data).length) :
    extractionLoop store libs none (f :: rest) parts sources n =
      if 3 ≤ n + 1 then
        (parts ++ [sectionString f (truncate_content c 1500)],
         sources ++ [mkSourceRef f])
      else
        extractionLoop store libs none rest
          (parts ++ [sectionString f (truncate_content c 1500)])
          (sources ++ [mkSourceRef f]) (n + 1) := by
  conv_lhs => unfold extractionLoop
  rw [hc]
  dsimp only
  rw [if_pos hlen]
  simp only [Bool.false_eq_true, if_false]

set_option maxRecDepth 40000 in
/-- Claim C2 amended: the sources manifest never exceeds three entries, and —
when no filename was extracted from the query, so the high-confidence
short-circuit cannot fire — a candidate list of at least four files that each
extract to more than 50 characters yields exactly three entries, the loop
stopping after the third success so that the result equals the loop run on
just the first three candidates (the fourth is never attempted). -/
theorem c2_sources_capped_at_three (store : MediaStore) (libs : ThirdPartyLibs) :
    (∀ (pf : Option String) (files : List DriveFile),
      (extractionLoop store libs pf files [] [] 0).2.length ≤ 3) ∧
    (∀ files : List DriveFile, 4 ≤ files.length →
      (∀ f ∈ files, substantialB store libs f = true) →
      (extractionLoop store libs none files [] [] 0).2.length = 3 ∧
      extractionLoop store libs none files [] [] 0 =
        extractionLoop store libs none (files.take 3) [] [] 0) := by
  constructor
  · intro pf files
    exact extractionLoop_sources_le store libs pf files [] [] 0 rfl (by omega)
  · intro files h4 hall
    rcases files with _ | ⟨f1, files⟩
    · simp at h4
    rcases files with _ | ⟨f2, files⟩
    · simp at h4
    rcases files with _ | ⟨f3, files⟩
    · simp at h4
    rcases files with _ | ⟨f4, rest⟩
    · simp at h4
    obtain ⟨c1, hc1, hl1⟩ := substantialB_elim (hall f1 (by simp))
    obtain ⟨c2, hc2, hl2⟩ := substantialB_elim (hall f2 (by simp))
    obtain ⟨c3, hc3, hl3⟩ := substantialB_elim (hall f3 (by simp))
    have step1 : extractionLoop store libs none (f1 :: f2 :: f3 :: f4 :: rest) [] [] 0 =
        extractionLoop store libs none (f2 :: f3 :: f4 :: rest)
          [sectionString f1 (truncate_content c1 1500)] [mkSourceRef f1] 1 := by
      have h := extractionLoop_cons_success store libs f1
        (f2 :: f3 :: f4 :: rest) [] [] 0 c1 hc1 hl1
      rw [if_neg (by omega)] at h
      simpa using h
    have step2 : extractionLoop store libs none (f2 :: f3 :: f4 :: rest)
          [sectionString f1 (truncate_content c1 1500)] [mkSourceRef f1] 1 =
        extractionLoop store libs none (f3 :: f4 :: rest)
          [sectionString f1 (truncate_content c1 1500),
           sectionString f2 (truncate_content c2 1500)]
          [mkSourceRef f1, mkSourceRef f2] 2 := by
      have h := extractionLoop_cons_success store libs f2
        (f3 :: f4 :: rest) [sectionString f1 (truncate_content c1 1500)]
        [mkSourceRef f1] 1 c2 hc2 hl2
      rw [if_neg (by omega)] at h
      simpa using h
    have step3 : extractionLoop store libs none (f3 :: f4 :: rest)
          [sectionString f1 (truncate_content c1 1500),
           sectionString f2 (truncate_content c2 1500)]
          [mkSourceRef f1, mkSourceRef f2] 2 =
        ([sectionString f1 (truncate_content c1 1500),
          sectionString f2 (truncate_content c2 1500),
          sectionString f3 (truncate_content c3 1500)],
         [mkSourceRef f1, mkSourceRef f2, mkSourceRef f3]) := by
      have h := extractionLoop_cons_success store libs f3 (f4 :: rest)
        [sectionString f1 (truncate_content c1 1500),
         sectionString f2 (truncate_content c2 1500)]
        [mkSourceRef f1, mkSourceRef f2] 2 c3 hc3 hl3
      rw [if_pos (by omega)] at h
      simpa using h
    have stepa : extractionLoop store libs none [f1, f2, f3] [] [] 0 =
        extractionLoop store libs none [f2, f3]
          [sectionString f1 (truncate_content c1 1500)] [mkSourceRef f1] 1 := by
      have h := extractionLoop_cons_success store libs f1
        (f2 :: f3 :: ([] : List DriveFile)) [] [] 0 c1 hc1 hl1
      rw [if_neg (by omega)] at h
      simpa using h
    have stepb : extractionLoop store libs none [f2, f3]
          [sectionString f1 (truncate_content c1 1500)] [mkSourceRef f1] 1 =
        extractionLoop store libs none [f3]
          [sectionString f1 (truncate_content c1 1500),
           sectionString f2 (truncate_content c2 1500)]
          [mkSourceRef f1, mkSourceRef f2] 2 := by
      have h := extractionLoop_cons_success store libs f2
        (f3 :: ([] : List DriveFile)) [sectionString f1 (truncate_content c1 1500)]
        [mkSourceRef f1] 1 c2 hc2 hl2
      rw [if_neg (by omega)] at h
      simpa using h
    have stepc : extractionLoop store libs none [f3]
          [sectionString f1 (truncate_content c1 1500),
           sectionString f2 (truncate_content c2 1500)]
          [mkSourceRef f1, mkSourceRef f2] 2 =
        ([sectionString f1 (truncate_content c1 1500),
          sectionString f2 (truncate_content c2 1500),
          sectionString f3 (truncate_content c3 1500)],
         [mkSourceRef f1, mkSourceRef f2, mkSourceRef f3]) := by
      have h := extractionLoop_cons_success store libs f3 ([] : List DriveFile)
        [sectionString f1 (truncate_content c1 1500),
         sectionString f2 (truncate_content c2 1500)]
        [mkSourceRef f1, mkSourceRef f2] 2 c3 hc3 hl3
      rw [if_pos (by omega)] at h
      simpa using h
    constructor
    · rw [step1, step2, step3]
      rfl
    · show extractionLoop store libs none (f1 :: f2 :: f3 :: f4 :: rest) [] [] 0 =
        extractionLoop store libs none [f1, f2, f3] [] [] 0
      rw [step1, step2, step3, stepa, stepb, stepc]

set_option maxRecDepth 400000 in
theorem c2_sources_capped_at_three_witness :
    (extractionLoop c2Store c2Libs none
      (search_files (driveListService c2Files) (some "report") none 10) [] [] 0).2.length ≤ 3 ∧
    (extractionLoop c2Store c2Libs none
      (search_files (driveListService c2Files) (some "report") none 10) [] [] 0).2.length = 3 :=
  ⟨(c2_sources_capped_at_three c2Store c2Libs).1 none _,
   ((c2_sources_capped_at_three c2Store c2Libs).2 _ (by decide) (by decide)).1⟩

/-! ### The agent variant (`src/agent/drive_utils.py`)

The repository carries a second implementation of the same class; its
`get_relevant_context` differs from the utils variant in filename extraction,
relevance scoring, and — decisive for claim C3 — in appending each file's
content to the context without truncation. -/

/-- The query cleaning of the agent variant's `search_files`
(src/agent/drive_utils.py lines 61-67): strip a trailing extension, strip,
tokenize with `re.findall(r'\w+', ...)` and keep terms longer than two
characters. -/
def agent_build_search_terms (q : String) : List String :=
  (findallWords (stripStr (stripTrailingExtension q))).filter (fun t => 2 < t.length)

/-- The composed listing query of the agent variant (lines 69-92). -/
def agent_build_drive_query (query : Option String) (fileTypes : Option (List String)) :
    DriveQuery :=
  let terms := match query with
    | some q => agent_build_search_terms q
    | none => []
  let mimes := match fileTypes with
    | some ft => if ft.isEmpty then supported_types.map Prod.fst else ft
    | none => supported_types.map Prod.fst
  ⟨terms, mimes⟩

/-- The agent variant's `search_files` (src/agent/drive_utils.py
lines 45-134). -/
def agent_search_files (service : ListService) (query : Option String)
    (fileTypes : Option (List String)) (limit : Nat) : List DriveFile :=
  match service (agent_build_drive_query query fileTypes) limit with
  | Except.error _ => []
  | Except.ok files => files.map enrichFile

/-- The agent variant's quoted-filename pattern
`["\']([^"\']+\.(?:pdf|docx?|txt|csv))["\']` (line 362), scanned for the
first match. -/
def agentFilenameScan : List Char → Option (List Char)
  | [] => none
  | c :: rest =>
    if isQuote c then
      let run := rest.takeWhile (fun d => !isQuote d)
      if !run.isEmpty && endsWithDotExt run &&
          (match rest.drop run.length with
           | q :: _ => isQuote q
           | [] => false) then
        some run
      else agentFilenameScan rest
    else agentFilenameScan rest

/-- `calculate_relevance` of the agent variant (src/agent/drive_utils.py
lines 379-399): matching word count between query and filename, a bonus of 2
for PDF files when the query mentions `pdf`, and a bonus of 5 when the
alphanumeric-stripped query and filename contain one another. -/
def agentRelevance (userQuery : String) (f : DriveFile) : Nat :=
  let filename := pyLower f.name
  let query_terms := firstDedup (findallWords (pyLower userQuery))
  let file_terms := firstDedup (findallWords filename)
  let base := (query_terms.filter (fun t => file_terms.contains t)).length
  let base :=
    if listContainsSub ['p', 'd', 'f'] (pyLower userQuery).data &&
        listEndsWith filename.data ['.', 'p', 'd', 'f'] then
      base + 2
    else base
  let clean_query := (pyLower userQuery).data.filter (fun c => c.isLower || c.isDigit)
  let clean_filename := filename.data.filter (fun c => c.isLower || c.isDigit)
  if listContainsSub clean_query clean_filename ||
      listContainsSub clean_filename clean_query then
    base + 5
  else base

/-- Stable insertion for the agent variant's descending relevance sort. -/
def insertRelDesc (key : DriveFile → Nat) (x : DriveFile) : List DriveFile → List DriveFile
  | [] => [x]
  | y :: ys => if key y ≤ key x then x :: y :: ys else y :: insertRelDesc key x ys

/-- `files.sort(key=calculate_relevance, reverse=True)` (line 402). -/
def sortRelDesc (key : DriveFile → Nat) (l : List DriveFile) : List DriveFile :=
  l.foldr (insertRelDesc key) []

/-- A `source_files` entry of the agent variant (lines 423-427). -/
structure AgentSource where
  id : String
  name : String
  type : String
deriving DecidableEq

/-- The per-file header of the agent variant (line 420). -/
def agentHeader (f : DriveFile) : String :=
  "\n" ++ (⟨List.replicate 60 '='⟩ : String) ++ "\nFile: " ++ f.name ++
    "\nType: " ++ f.typeName ++ "\n" ++ (⟨List.replicate 60 '='⟩ : String) ++ "\n"

/-- The agent variant's extraction loop (src/agent/drive_utils.py
lines 409-436): same substance gate and three-success cap as the utils
variant, but the content is appended untruncated and there is no
high-confidence short-circuit. -/
def agent_extraction_loop (store : MediaStore) (libs : ThirdPartyLibs) :
    List DriveFile → List String → List AgentSource → Nat →
      List String × List AgentSource
  | [], parts, sources, _ => (parts, sources)
  | f :: rest, parts, sources, n =>
    match get_file_content store libs f.id f.mimeType f.name with
    | some c =>
      if 50 < (pyStrip c.data).length then
        let parts2 := parts ++ [agentHeader f ++ c]
        let sources2 := sources ++ [⟨f.id, f.name, f.typeName⟩]
        let n2 := n + 1
        if 3 ≤ n2 then (parts2, sources2)
        else agent_extraction_loop store libs rest parts2 sources2 n2
      else if 3 ≤ n then (parts, sources)
      else agent_extraction_loop store libs rest parts sources n
    | none =>
      if 3 ≤ n then (parts, sources)
      else agent_extraction_loop store libs rest parts sources n

/-- The agent variant's `get_relevant_context` (src/agent/drive_utils.py
lines 349-447). -/
def agent_get_relevant_context (service : ListService) (store : MediaStore)
    (libs : ThirdPartyLibs) (userQuery : String) (maxFiles : Nat := 10) :
    String × List AgentSource :=
  let search_query :=
    match agentFilenameScan userQuery.data with
    | some g => (⟨g⟩ : String)
    | none => userQuery
  let files := agent_search_files service (some search_query) none maxFiles
  if files.isEmpty then ("", [])
  else
    let sorted := sortRelDesc (agentRelevance userQuery) files
    let r := agent_extraction_loop store libs (sorted.take maxFiles) [] [] 0
    (joinStringsNl r.1, r.2)

/-! ### Claim C3: length of the assembled context

The claim asserts a truncation-derived bound on the combined context text
for every query.  The utils variant truncates every section body to 1500
characters before framing, which yields such a bound; the agent variant
appends each body untruncated, which refutes the universal claim. -/

/-- A run of a fixed character other than `ch` satisfies the run bound for
`ch` vacuously. -/
theorem rbAux_replicate {ch c0 : Char} (h : ¬(c0 = ch)) (k : Nat) :
    ∀ (n j : Nat), rbAux ch k j (List.replicate n c0) = true := by
  intro n
  induction n with
  | zero => intro j; rfl
  | succ m ih =>
    intro j
    rw [List.replicate_succ]
    simp only [rbAux]
    rw [if_neg h]
    exact ih 0

/-- A run of a non-whitespace character has a non-whitespace head. -/
theorem headOK_replicate {c : Char} (h : pyIsSpace c = false) (n : Nat) :
    headOK (List.replicate n c) := by
  intro d hd
  cases n with
  | zero => simp at hd
  | succ m =>
    rw [List.replicate_succ, List.head?_cons] at hd
    injection hd with hd
    rw [← hd]
    exact h

/-- A run of a non-whitespace character has a non-whitespace last element. -/
theorem lastOK_replicate {c : Char} (h : pyIsSpace c = false) (n : Nat) :
    lastOK (List.replicate n c) := by
  intro d hd
  cases n with
  | zero => simp at hd
  | succ m =>
    rw [List.replicate_succ', List.getLast?_concat] at hd
    injection hd with hd
    rw [← hd]
    exact h

/-- A run of the letter `a` satisfies every invariant of cleaned text. -/
theorem cleanedOK_replicate_a (n : Nat) : cleanedOK (List.replicate n 'a') := by
  refine ⟨?_, ?_, ?_, ?_, ?_, ?_, ?_, ?_⟩
  · intro c hc
    rw [List.eq_of_mem_replicate hc]
    decide
  · intro c hc hs
    rw [List.eq_of_mem_replicate hc] at hs
    exact absurd hs (by decide)
  · exact rbAux_replicate (by decide) 3 n 0
  · exact rbAux_replicate (by decide) 1 n 0
  · exact rbAux_replicate (by decide) 1 n 0
  · exact rbAux_replicate (by decide) 1 n 0
  · exact headOK_replicate (by decide) n
  · exact lastOK_replicate (by decide) n

/-- A nonempty run of the letter `a` is a fixed point of `clean_text`. -/
theorem clean_text_replicate_a (n : Nat) (hn : n ≠ 0) :
    clean_text (⟨List.replicate n 'a'⟩ : String) = ⟨List.replicate n 'a'⟩ := by
  have hne : ¬((⟨List.replicate n 'a'⟩ : String) = "") := by
    intro h
    have h2 : List.replicate n 'a' = [] := congrArg String.data h
    have h3 := congrArg List.length h2
    rw [List.length_replicate] at h3
    simp at h3
    exact hn h3
  unfold clean_text
  rw [if_neg hne]
  show (⟨cleanTextList (List.replicate n 'a')⟩ : String) = _
  rw [cleanTextList_id (cleanedOK_replicate_a n)]

/-- The single candidate file of the C3 scenario. -/
def c3File : RawFile := ⟨"n1", "notes.txt", "text/plain", none, none, none, none⟩

/-- The Drive of the C3 scenario: one plain-text file. -/
def c3Files : List RawFile := [c3File]

/-- The decoded body of the C3 scenario's text file: 1600 word characters,
ahead of the 1500-character truncation budget. -/
def c3Body : String := ⟨List.replicate 1600 'a'⟩

/-- Downloads of the C3 scenario. -/
def c3Store : MediaStore := ⟨fun _ => some c3Body, fun _ => none⟩

/-- Libraries of the C3 scenario (the plain-text path uses none of them). -/
def c3Libs : ThirdPartyLibs :=
  ⟨id, fun _ => none, fun _ => "", fun _ => "", fun _ => [],
   fun _ => none, fun _ => none⟩

/-- The quoted-filename scan finds nothing in the C3 query. -/
theorem agentScan_summarize_notes : agentFilenameScan ("summarize notes".data) = none := rfl

/-- The agent variant's search returns the scenario's single text file. -/
theorem agent_search_c3 : agent_search_files (driveListService c3Files)
    (some "summarize notes") none 10 = [enrichFile c3File] := rfl

/-- The scenario body carries no surrounding whitespace. -/
theorem pyStrip_c3Body : pyStrip (List.replicate 1600 'a') = List.replicate 1600 'a' :=
  pyStrip_id (headOK_replicate (by decide) 1600) (lastOK_replicate (by decide) 1600)

/-- The scenario body is a fixed point of the normalizer. -/
theorem clean_text_c3Body : clean_text c3Body = c3Body :=
  clean_text_replicate_a 1600 (by omega)

/-- The scenario body is nonempty. -/
theorem c3Body_ne_empty : ¬(c3Body = "") := by decide

/-- The dispatcher extracts the scenario body over the plain-text path. -/
theorem dispatch_c3 : dispatch_file_content c3Store c3Libs "n1" "text/plain" =
    some c3Body := by
  unfold dispatch_file_content
  rw [if_neg (by decide), if_pos rfl]
  show some (clean_text c3Body) = some c3Body
  rw [clean_text_c3Body]

/-- The full extraction returns the scenario body. -/
theorem get_file_content_c3 : get_file_content c3Store c3Libs "n1" "text/plain"
    "notes.txt" = some c3Body := by
  unfold get_file_content
  rw [dispatch_c3]
  dsimp only
  rw [if_neg c3Body_ne_empty]

/-- The scenario body passes the fifty-character substance gate. -/
theorem c3Body_gate : 50 < (pyStrip c3Body.data).length := by
  show 50 < (pyStrip (List.replicate 1600 'a')).length
  rw [pyStrip_c3Body, List.length_replicate]
  omega

/-- One successful step of the agent variant's extraction loop: the header
and the UNTRUNCATED content are appended. -/
theorem agent_loop_cons_success (store : MediaStore) (libs : ThirdPartyLibs)
    (f : DriveFile) (rest : List DriveFile) (parts : List String)
    (sources : List AgentSource) (n : Nat) (c : String)
    (hc : get_file_content store libs f.id f.mimeType f.name = some c)
    (hlen : 50 < (pyStrip c.data).length) :
    agent_extraction_loop store libs (f :: rest) parts sources n =
      if 3 ≤ n + 1 then
        (parts ++ [agentHeader f ++ c], sources ++ [⟨f.id, f.name, f.typeName⟩])
      else
        agent_extraction_loop store libs rest (parts ++ [agentHeader f ++ c])
          (sources ++ [⟨f.id, f.name, f.typeName⟩]) (n + 1) := by
  conv_lhs => unfold agent_extraction_loop
  rw [hc]
  dsimp only
  rw [if_pos hlen]

/-- The loop of the C3 scenario emits one untruncated section. -/
theorem agent_loop_c3 : agent_extraction_loop c3Store c3Libs [enrichFile c3File]
    [] [] 0 =
    ([agentHeader (enrichFile c3File) ++ c3Body],
     [(⟨(enrichFile c3File).id, (enrichFile c3File).name,
        (enrichFile c3File).typeName⟩ : AgentSource)]) := by
  have hc : get_file_content c3Store c3Libs (enrichFile c3File).id
      (enrichFile c3File).mimeType (enrichFile c3File).name = some c3Body :=
    get_file_content_c3
  rw [agent_loop_cons_success c3Store c3Libs (enrichFile c3File) [] [] [] 0 c3Body
    hc c3Body_gate, if_neg (by omega)]
  show ([] ++ [agentHeader (enrichFile c3File) ++ c3Body],
        [] ++ [(⟨(enrichFile c3File).id, (enrichFile c3File).name,
          (enrichFile c3File).typeName⟩ : AgentSource)]) = _
  simp

/-- The combined context of the C3 scenario is the header plus the full
untruncated body. -/
theorem agent_context_c3 : (agent_get_relevant_context (driveListService c3Files)
    c3Store c3Libs "summarize notes" 10).1 =
    agentHeader (enrichFile c3File) ++ c3Body := by
  unfold agent_get_relevant_context
  dsimp only
  rw [agentScan_summarize_notes]
  dsimp only
  rw [agent_search_c3]
  rw [if_neg (by decide)]
  have hsort : sortRelDesc (agentRelevance "summarize notes") [enrichFile c3File] =
      [enrichFile c3File] := rfl
  rw [hsort]
  have htake : ([enrichFile c3File].take 10) = [enrichFile c3File] := rfl
  rw [htake, agent_loop_c3]
  show joinStringsNl [agentHeader (enrichFile c3File) ++ c3Body] = _
  rfl

set_option maxRecDepth 40000 in
/-- The framing header of the scenario file is 155 characters. -/
theorem agentHeader_c3_length : (agentHeader (enrichFile c3File)).length = 155 := by
  decide

/-- The scenario body is 1600 characters. -/
theorem c3Body_length : c3Body.length = 1600 := by
  show (List.replicate 1600 'a').length = 1600
  rw [List.length_replicate]

/-- Claim C3 counterexample: the agent variant's assembler appends each
file's extracted content to the context with no truncation at all
(src/agent/drive_utils.py line 421), so a 1600-character text file makes the
combined text the framing header plus the full 1600-character body — 1755
characters, strictly more than the 1500-character budget, the three-character
ellipsis and the header together would permit for its single included file. -/
theorem c3_agent_sections_not_truncated :
    (agent_get_relevant_context (driveListService c3Files) c3Store c3Libs
        "summarize notes" 10).1 =
      agentHeader (enrichFile c3File) ++ c3Body ∧
    (agent_get_relevant_context (driveListService c3Files) c3Store c3Libs
        "summarize notes" 10).1.length = 1755 ∧
    1503 + (agentHeader (enrichFile c3File)).length <
      (agent_get_relevant_context (driveListService c3Files) c3Store c3Libs
        "summarize notes" 10).1.length := by
  refine ⟨agent_context_c3, ?_, ?_⟩
  · rw [agent_context_c3, String.length_append, agentHeader_c3_length, c3Body_length]
  · rw [agent_context_c3, String.length_append, agentHeader_c3_length, c3Body_length]
    omega

/-- Each readable type name produced by the registry lookup is at most
thirteen characters: the longest entries are `Markdown File` and
`Word Document`, and the fallback is `Unknown`. -/
theorem enrichFile_typeName_le (rf : RawFile) :
    (enrichFile rf).typeName.length ≤ 13 := by
  have aux : ∀ (l : List (String × String)), (∀ p ∈ l, p.2.length ≤ 13) →
      ((l.lookup rf.mimeType).getD "Unknown").length ≤ 13 := by
    intro l
    induction l with
    | nil =>
      intro _
      show (("Unknown" : String)).length ≤ 13
      decide
    | cons p rest ih =>
      intro h
      obtain ⟨k, v⟩ := p
      by_cases hk : rf.mimeType = k
      · have he : ((k, v) :: rest).lookup rf.mimeType = some v := by
          simp [List.lookup, hk]
        rw [he]
        exact h (k, v) (List.mem_cons_self _ _)
      · have hbeq : (rf.mimeType == k) = false := beq_eq_false_iff_ne.mpr hk
        have he : ((k, v) :: rest).lookup rf.mimeType = rest.lookup rf.mimeType := by
          simp [List.lookup, hbeq]
        rw [he]
        exact ih (fun q hq => h q (List.mem_cons_of_mem _ hq))
  exact aux supported_types (by decide)

/-- Every enriched result of `search_files` keeps the provider-reported name
and carries a registry type name: under a service whose reported names are at
most `L` characters, every result has a name of at most `L` characters and a
type name of at most thirteen. -/
theorem search_files_mem_bound (service : ListService) (L : Nat)
    (hsvc : ∀ dq lim fl, service dq lim = Except.ok fl → ∀ rf ∈ fl, rf.name.length ≤ L)
    (query : Option String) (fileTypes : Option (List String)) (limit : Nat) :
    ∀ f ∈ search_files service query fileTypes limit,
      f.name.length ≤ L ∧ f.typeName.length ≤ 13 := by
  intro f hf
  unfold search_files at hf
  rcases h : service (build_drive_query query fileTypes) limit with e | fl
  · rw [h] at hf
    dsimp only at hf
    cases hf
  · rw [h] at hf
    dsimp only at hf
    simp only [List.mem_map] at hf
    obtain ⟨rf, hrf, hrfeq⟩ := hf
    subst hrfeq
    exact ⟨hsvc _ _ _ h rf hrf, enrichFile_typeName_le rf⟩

/-- Insertion into the descending similarity sort introduces no new element. -/
theorem insertSimDesc_mem (key : DriveFile → ℚ) (x : DriveFile) :
    ∀ (l : List DriveFile) (y : DriveFile),
      y ∈ insertSimDesc key x l → y = x ∨ y ∈ l := by
  intro l
  induction l with
  | nil =>
    intro y hy
    rcases List.mem_cons.mp hy with h | h
    · exact Or.inl h
    · cases h
  | cons z zs ih =>
    intro y hy
    unfold insertSimDesc at hy
    split at hy
    · rcases List.mem_cons.mp hy with h | h
      · exact Or.inl h
      · exact Or.inr h
    · rcases List.mem_cons.mp hy with h | h
      · subst h
        exact Or.inr (List.mem_cons_self _ _)
      · rcases ih y h with h2 | h2
        · exact Or.inl h2
        · exact Or.inr (List.mem_cons_of_mem _ h2)

/-- The descending similarity sort permutes the candidate list and in
particular adds no element. -/
theorem sortSimDesc_mem (key : DriveFile → ℚ) :
    ∀ (l : List DriveFile) (y : DriveFile), y ∈ sortSimDesc key l → y ∈ l := by
  intro l
  induction l with
  | nil =>
    intro y hy
    cases hy
  | cons z zs ih =>
    intro y hy
    have hy2 : y ∈ insertSimDesc key z (sortSimDesc key zs) := hy
    rcases insertSimDesc_mem key z _ y hy2 with h | h
    · subst h
      exact List.mem_cons_self _ _
    · exact List.mem_cons_of_mem _ (ih y h)

/-- The framed section around a truncated body adds thirty-two characters of
framing to the file's name, its type name and the body. -/
theorem sectionString_length (f : DriveFile) (tc : String) :
    (sectionString f tc).length =
      32 + f.name.length + f.typeName.length + tc.length := by
  unfold sectionString
  simp only [String.length_append]
  have e1 : ("--- Content from file: " : String).length = 23 := rfl
  have e2 : (" (" : String).length = 2 := rfl
  have e3 : (") ---\n" : String).length = 6 := rfl
  have e4 : ("\n" : String).length = 1 := rfl
  omega

/-- Moving the last element to the front introduces no new element. -/
theorem moveLastToFront_mem {α : Type} {l : List α} {x : α}
    (h : x ∈ moveLastToFront l) : x ∈ l := by
  unfold moveLastToFront at h
  rcases hr : l.getLast? with _ | y
  · rw [hr] at h
    exact h
  · rw [hr] at h
    rcases List.mem_cons.mp h with h2 | h2
    · subst h2
      exact List.mem_of_mem_getLast? hr
    · exact (List.dropLast_sublist l).mem h2

/-- Through the extraction loop the context-part list never exceeds three
entries, counting from a start where the part count equals the loop counter. -/
theorem extractionLoop_parts_le (store : MediaStore) (libs : ThirdPartyLibs)
    (pf : Option String) :
    ∀ (files : List DriveFile) (parts : List String) (sources : List SourceRef)
      (n : Nat), parts.length = n → n ≤ 2 →
      (extractionLoop store libs pf files parts sources n).1.length ≤ 3 := by
  intro files
  induction files with
  | nil =>
    intro parts sources n hlen hn
    unfold extractionLoop
    show parts.length ≤ 3
    omega
  | cons f rest ih =>
    intro parts sources n hlen hn
    unfold extractionLoop
    rcases hg : get_file_content store libs f.id f.mimeType f.name with _ | c
    · dsimp only
      by_cases h3 : 3 ≤ n
      · rw [if_pos h3]
        show parts.length ≤ 3
        omega
      · rw [if_neg h3]
        exact ih parts sources n hlen hn
    · dsimp only
      by_cases hsub : 50 < (pyStrip c.data).length
      · rw [if_pos hsub]
        have hlen2 : (parts ++ [sectionString f (truncate_content c 1500)]).length
            = n + 1 := by
          simp [hlen]
        split
        · split
          · show (moveLastToFront
                (parts ++ [sectionString f (truncate_content c 1500)])).length ≤ 3
            rw [moveLastToFront_length]
            omega
          · show (parts ++ [sectionString f (truncate_content c 1500)]).length ≤ 3
            omega
        · by_cases h3 : 3 ≤ n + 1
          · rw [if_pos h3]
            show (parts ++ [sectionString f (truncate_content c 1500)]).length ≤ 3
            omega
          · rw [if_neg h3]
            exact ih _ _ (n + 1) hlen2 (by omega)
      · rw [if_neg hsub]
        by_cases h3 : 3 ≤ n
        · rw [if_pos h3]
          show parts.length ≤ 3
          omega
        · rw [if_neg h3]
          exact ih parts sources n hlen hn

/-- Through the extraction loop every context part stays within
`1548 + L` characters when every candidate file has a name of at most `L`
characters and a type name of at most thirteen: each new part is a framed
section of thirty-two characters around a body truncated to at most 1503
characters. -/
theorem extractionLoop_parts_mem (store : MediaStore) (libs : ThirdPartyLibs)
    (pf : Option String) (L : Nat) :
    ∀ (files : List DriveFile) (parts : List String) (sources : List SourceRef)
      (n : Nat),
      (∀ p ∈ parts, p.length ≤ 1548 + L) →
      (∀ f ∈ files, f.name.length ≤ L ∧ f.typeName.length ≤ 13) →
      ∀ p ∈ (extractionLoop store libs pf files parts sources n).1,
        p.length ≤ 1548 + L := by
  intro files
  induction files with
  | nil =>
    intro parts sources n hparts hfiles p hp
    exact hparts p hp
  | cons f rest ih =>
    intro parts sources n hparts hfiles p hp
    unfold extractionLoop at hp
    rcases hg : get_file_content store libs f.id f.mimeType f.name with _ | c
    · rw [hg] at hp
      dsimp only at hp
      split at hp
      · exact hparts p hp
      · exact ih parts sources n hparts
          (fun g hgm => hfiles g (List.mem_cons_of_mem _ hgm)) p hp
    · rw [hg] at hp
      dsimp only at hp
      have hfb := hfiles f (List.mem_cons_self _ _)
      have hnew : (sectionString f (truncate_content c 1500)).length ≤ 1548 + L := by
        rw [sectionString_length]
        have ht := truncate_content_length_le c 1500
        omega
      have hparts2 : ∀ q ∈ parts ++ [sectionString f (truncate_content c 1500)],
          q.length ≤ 1548 + L := by
        intro q hq
        rcases List.mem_append.mp hq with h2 | h2
        · exact hparts q h2
        · rcases List.mem_cons.mp h2 with h3 | h3
          · rw [h3]
            exact hnew
          · cases h3
      split at hp
      · split at hp
        · split at hp
          · exact hparts2 p (moveLastToFront_mem hp)
          · exact hparts2 p hp
        · split at hp
          · exact hparts2 p hp
          · exact ih _ _ (n + 1) hparts2
              (fun g hgm => hfiles g (List.mem_cons_of_mem _ hgm)) p hp
      · split at hp
        · exact hparts p hp
        · exact ih parts sources n hparts
            (fun g hgm => hfiles g (List.mem_cons_of_mem _ hgm)) p hp

/-- The newline join of at most three parts of at most `B` characters each is
at most `3 * B + 2` characters. -/
theorem joinStringsNl_length_le3 (B : Nat) (parts : List String)
    (hlen : parts.length ≤ 3) (hmem : ∀ p ∈ parts, p.length ≤ B) :
    (joinStringsNl parts).length ≤ 3 * B + 2 := by
  rcases parts with _ | ⟨a, _ | ⟨b, _ | ⟨c, _ | ⟨d, t⟩⟩⟩⟩
  · show (("" : String)).length ≤ 3 * B + 2
    simp
  · have ha := hmem a (by simp)
    show a.length ≤ 3 * B + 2
    omega
  · have ha := hmem a (by simp)
    have hb := hmem b (by simp)
    show (a ++ "\n" ++ joinStringsNl [b]).length ≤ 3 * B + 2
    simp only [String.length_append]
    have e : ("\n" : String).length = 1 := rfl
    have hjb : (joinStringsNl [b]).length = b.length := rfl
    omega
  · have ha := hmem a (by simp)
    have hb := hmem b (by simp)
    have hc := hmem c (by simp)
    show (a ++ "\n" ++ joinStringsNl [b, c]).length ≤ 3 * B + 2
    have h2 : joinStringsNl [b, c] = b ++ "\n" ++ joinStringsNl [c] := rfl
    rw [h2]
    simp only [String.length_append]
    have e : ("\n" : String).length = 1 := rfl
    have hjc : (joinStringsNl [c]).length = c.length := rfl
    omega
  · simp at hlen

/-- The final assembly step of `get_relevant_context`: whatever candidate
list reaches the extraction loop, as long as every candidate's name is at
most `L` characters and its type name at most thirteen, the joined context
text is at most `3 * (1548 + L) + 2` characters. -/
theorem assemble_length_bound (store : MediaStore) (libs : ThirdPartyLibs)
    (pf : Option String) (L : Nat) (files3 : List DriveFile)
    (hf : ∀ f ∈ files3, f.name.length ≤ L ∧ f.typeName.length ≤ 13) :
    (if files3.isEmpty then (("" : String), ([] : List SourceRef))
     else
       (joinStringsNl (extractionLoop store libs pf
          (match pf with
           | some p =>
             sortSimDesc (fun f =>
               calculate_filename_similarity (pyLower f.name)
                 (clean_filename_for_search (pyLower p))) files3
           | none => files3) [] [] 0).1,
        (extractionLoop store libs pf
          (match pf with
           | some p =>
             sortSimDesc (fun f =>
               calculate_filename_similarity (pyLower f.name)
                 (clean_filename_for_search (pyLower p))) files3
           | none => files3) [] [] 0).2)).1.length ≤ 3 * (1548 + L) + 2 := by
  have key : ∀ (files : List DriveFile),
      (∀ f ∈ files, f.name.length ≤ L ∧ f.typeName.length ≤ 13) →
      (joinStringsNl (extractionLoop store libs pf files [] [] 0).1).length ≤
        3 * (1548 + L) + 2 := by
    intro files hfb
    refine joinStringsNl_length_le3 (1548 + L) _ ?_ ?_
    · exact extractionLoop_parts_le store libs pf files [] [] 0 rfl (by omega)
    · exact extractionLoop_parts_mem store libs pf L files [] [] 0
        (fun p hp => absurd hp (List.not_mem_nil p)) hfb
  by_cases he : files3.isEmpty = true
  · rw [if_pos he]
    show (("" : String)).length ≤ 3 * (1548 + L) + 2
    simp
  · rw [if_neg he]
    rcases pf with _ | p
    · exact key files3 hf
    · exact key _ (fun f hfm => hf f (sortSimDesc_mem _ files3 f hfm))

/-- Claim C3 amended: in the utils variant every section body is truncated to
1500 characters (1503 with the ellipsis) before the thirty-two characters of
framing are added, at most three sections are collected, and the sections are
joined by single newlines; so under any listing service whose reported file
names are at most `L` characters the combined context text never exceeds
`3 * (1548 + L) + 2` characters. -/
theorem c3_context_length_bounded (service : ListService) (store : MediaStore)
    (libs : ThirdPartyLibs) (L : Nat)
    (hsvc : ∀ dq lim fl, service dq lim = Except.ok fl → ∀ rf ∈ fl, rf.name.length ≤ L)
    (userQuery : String) (maxFiles : Nat) :
    (get_relevant_context service store libs userQuery maxFiles).1.length ≤
      3 * (1548 + L) + 2 := by
  have hP : ∀ (q : Option String) (ft : Option (List String)) (lim : Nat),
      ∀ f ∈ search_files service q ft lim,
        f.name.length ≤ L ∧ f.typeName.length ≤ 13 :=
    fun q ft lim => search_files_mem_bound service L hsvc q ft lim
  unfold get_relevant_context
  dsimp only
  rcases hpf : extractPotentialFilename userQuery with _ | pfv <;> dsimp only
  · refine assemble_length_bound store libs none L _ ?_
    intro f hfm
    repeat' split at hfm
    all_goals first
      | exact hP _ _ _ f hfm
      | cases hfm
  · refine assemble_length_bound store libs (some pfv) L _ ?_
    intro f hfm
    repeat' split at hfm
    all_goals exact hP _ _ _ f hfm

theorem c3_context_length_bounded_witness :
    (get_relevant_context (driveListService c2Files) c2Store c2Libs
      "report" 10).1.length ≤ 3 * (1548 + 12) + 2 := by
  refine c3_context_length_bounded (driveListService c2Files) c2Store c2Libs 12
    ?_ "report" 10
  intro dq lim fl h rf hrf
  have h2 : rf ∈ c2Files := by
    unfold driveListService at h
    injection h with h
    rw [← h] at hrf
    exact List.mem_of_mem_filter (List.take_subset _ _ hrf)
  simp [c2Files] at h2
  rcases h2 with h2 | h2 | h2 | h2 <;> rw [h2] <;> decide

end IntelligentAgent
